import Mathlib

/-!
# CGPA calculator: grade engine and session store

A shallow embedding of `src/script.js`.

* JavaScript numbers are IEEE doubles (`JSNum`): a finite double is held as
  the rational it denotes, next to `NaN` and the two infinities.  The result
  of `+`, `-`, `*`, `/`, of reading a numeric string and of `++` is rounded
  to the nearest double, ties to even, overflowing to an infinity
  (`roundQ`).  The sign of zero is not modelled.
* A field read from a subject is a primitive JavaScript value (`JSValue`):
  `null`, `undefined` (an absent field), a boolean, a number or a string.
  Arrays and objects in a field are outside the model.  A number field may
  hold any rational; the values the code can receive are the doubles among
  them, and every statement over all rationals covers these.
* Ids are integers; the counters are incremented in double arithmetic
  (`jsSucc`), so that `2 ^ 53 + 1` is `2 ^ 53`.
* The three globals `sems`, `nextSemId`, `nextSubId` form the `State`; every
  action is a function on it.  An action that throws a `TypeError` before it
  mutated anything returns `none`.
-/

namespace CGPA

/-! ## Numbers -/

/-- A JavaScript number: `NaN`, a finite value, or a signed infinity. -/
inductive JSNum where
  | nan
  | fin (q : ℚ)
  | inf (neg : Bool)
  deriving DecidableEq

/-- The quotient `n / d` of two naturals rounded to the nearest natural, a
tie going to the even one. -/
def roundHalfEven (n d : Nat) : Nat :=
  if 2 * (n % d) < d then n / d
  else if d < 2 * (n % d) then n / d + 1
  else if n / d % 2 = 0 then n / d
  else n / d + 1

/-- Halving `n` until it is below 2, at most `fuel` times, counting the
steps. -/
def log2Aux : Nat → Nat → Nat
  | 0, _ => 0
  | fuel + 1, n => if 2 ≤ n then log2Aux fuel (n / 2) + 1 else 0

/-- The binary logarithm of a positive natural, rounded down. -/
def natLog2 (n : Nat) : Nat := log2Aux n n

/-- The binary exponent of the positive fraction `n / d`: the `e` with
`2 ^ e ≤ n / d < 2 ^ (e + 1)`. -/
def floorLog2 (n d : Nat) : Int :=
  let e : Int := (natLog2 n : Int) - (natLog2 d : Int)
  if d * 2 ^ e.toNat ≤ n * 2 ^ (-e).toNat then e else e - 1

/-- The power `2 ^ u` for an integer `u`. -/
def pow2 (u : Int) : ℚ :=
  if 0 ≤ u then ((2 ^ u.toNat : Nat) : ℚ) else 1 / ((2 ^ (-u).toNat : Nat) : ℚ)

/-- The exponent of the unit in the last place of the double nearest to
`n / d`: 52 below the binary exponent, and never below `-1074`, the
exponent of the subnormal doubles. -/
def ulpExponent (n d : Nat) : Int := max (floorLog2 n d - 52) (-1074)

/-- The positive fraction `n / d` rounded to a multiple of its unit in the
last place, ties to even: the nearest double when that is finite. -/
def roundMagnitude (n d : Nat) : ℚ :=
  (roundHalfEven (n * 2 ^ (-ulpExponent n d).toNat) (d * 2 ^ (ulpExponent n d).toNat) : ℚ) *
    pow2 (ulpExponent n d)

/-- The double nearest to a rational: round to nearest, ties to even; a
magnitude that rounds to `2 ^ 1024` or more overflows to an infinity. -/
def roundQ (q : ℚ) : JSNum :=
  if q = 0 then JSNum.fin 0
  else if pow2 1024 ≤ roundMagnitude q.num.natAbs q.den then JSNum.inf (decide (q < 0))
  else JSNum.fin (if q < 0 then -roundMagnitude q.num.natAbs q.den
    else roundMagnitude q.num.natAbs q.den)

namespace JSNum

/-- The `+` of two numbers. -/
def add : JSNum → JSNum → JSNum
  | fin a, fin b => roundQ (a + b)
  | fin _, inf s => inf s
  | inf s, fin _ => inf s
  | inf s, inf t => if s = t then inf s else nan
  | _, _ => nan

/-- The `*` of two numbers. -/
def mul : JSNum → JSNum → JSNum
  | fin a, fin b => roundQ (a * b)
  | fin a, inf s => if a = 0 then nan else inf (if a < 0 then !s else s)
  | inf s, fin b => if b = 0 then nan else inf (if b < 0 then !s else s)
  | inf s, inf t => inf (s != t)
  | _, _ => nan

/-- The `-` of two numbers. -/
def sub : JSNum → JSNum → JSNum
  | fin a, fin b => roundQ (a - b)
  | fin _, inf s => inf (!s)
  | inf s, fin _ => inf s
  | inf s, inf t => if s = t then nan else inf s
  | _, _ => nan

/-- The `/` of two numbers; a zero divisor is taken as `+0`. -/
def div : JSNum → JSNum → JSNum
  | fin a, fin b =>
      if b = 0 then (if a = 0 then nan else inf (decide (a < 0))) else roundQ (a / b)
  | fin _, inf _ => fin 0
  | inf s, fin b => inf (if b < 0 then !s else s)
  | _, _ => nan

/-- The comparison `x > y`; false as soon as one side is `NaN`. -/
def gt : JSNum → JSNum → Bool
  | fin a, fin b => decide (b < a)
  | fin _, inf s => s
  | inf s, fin _ => !s
  | inf s, inf t => !s && t
  | _, _ => false

/-- The comparison `x >= y`; false as soon as one side is `NaN`. -/
def ge : JSNum → JSNum → Bool
  | fin a, fin b => decide (b ≤ a)
  | fin _, inf s => s
  | inf s, fin _ => !s
  | inf s, inf t => !s || t
  | _, _ => false

/-- Truthiness of a number (`x ? a : b`): everything but zero and `NaN`. -/
def truthy : JSNum → Bool
  | fin a => decide (a ≠ 0)
  | inf _ => true
  | nan => false

/-- The global `isNaN` on a number. -/
def isNaN : JSNum → Bool
  | nan => true
  | _ => false

instance : Add JSNum := ⟨add⟩
instance : Mul JSNum := ⟨mul⟩
instance : Sub JSNum := ⟨sub⟩
instance : Div JSNum := ⟨div⟩
instance : NatCast JSNum := ⟨fun n => fin n⟩
instance : OfNat JSNum n := ⟨fin n⟩

end JSNum

/-- Sum of a list as a left-to-right accumulation starting from `0`. -/
def jsSum (l : List JSNum) : JSNum := l.foldl (· + ·) 0

/-! ## Primitive values and `Number(...)` -/

/-- A primitive value held in a subject field. -/
inductive JSValue where
  | null
  | undefined
  | bool (b : Bool)
  | num (n : JSNum)
  | str (s : String)
  deriving DecidableEq

/-- Code points removed by `String.prototype.trim` and skipped around a
numeric string: ECMAScript WhiteSpace and LineTerminator. -/
def isStrWhiteSpaceChar (c : Char) : Bool :=
  [0x09, 0x0A, 0x0B, 0x0C, 0x0D, 0x20, 0xA0, 0x1680, 0x2000, 0x2001, 0x2002, 0x2003,
   0x2004, 0x2005, 0x2006, 0x2007, 0x2008, 0x2009, 0x200A, 0x2028, 0x2029, 0x202F,
   0x205F, 0x3000, 0xFEFF].contains c.toNat

/-- The characters of a string without leading and trailing white space. -/
def trimChars (l : List Char) : List Char :=
  ((l.dropWhile isStrWhiteSpaceChar).reverse.dropWhile isStrWhiteSpaceChar).reverse

/-- `String.prototype.trim`. -/
def jsTrim (s : String) : String := String.mk (trimChars s.data)

/-- `String.prototype.toUpperCase` on the basic Latin letters.  The full
Unicode mapping differs on other letters, none of which is mapped onto a
basic Latin letter `A`..`F` or onto `+`, so the lookup in the grade table
below is the same under either mapping. -/
def jsToUpperCase (s : String) : String := String.mk (s.data.map Char.toUpper)

/-- Value of a digit in a radix up to 16, if the character is one. -/
def digitValue (radix : Nat) (c : Char) : Option Nat :=
  let v : Option Nat :=
    if c.isDigit then some (c.toNat - 48)
    else if 97 ≤ c.toNat ∧ c.toNat ≤ 102 then some (c.toNat - 87)
    else if 65 ≤ c.toNat ∧ c.toNat ≤ 70 then some (c.toNat - 55)
    else none
  v.bind fun d => if d < radix then some d else none

/-- A non-empty run of digits in the radix, read as a natural number. -/
def digitsValue (radix : Nat) (l : List Char) : Option Nat :=
  if l = [] then none
  else l.foldl (fun acc c => acc.bind fun n => (digitValue radix c).map fun d => radix * n + d)
    (some 0)

/-- A possibly empty run of decimal digits. -/
def decimalDigitsOpt (l : List Char) : Option Nat :=
  if l = [] then some 0 else digitsValue 10 l

/-- ExponentPart after its `e`: an optional sign and decimal digits. -/
def parseExponent : List Char → Option Int
  | '+' :: ds => (digitsValue 10 ds).map fun n => (n : Int)
  | '-' :: ds => (digitsValue 10 ds).map fun n => -(n : Int)
  | ds => (digitsValue 10 ds).map fun n => (n : Int)

/-- The digits before the exponent: `ddd`, `ddd.`, `ddd.ddd` or `.ddd`. -/
def parseMantissa (l : List Char) : Option ℚ :=
  let ip := l.takeWhile Char.isDigit
  match l.dropWhile Char.isDigit with
  | [] => (digitsValue 10 ip).map fun n => (n : ℚ)
  | '.' :: fp =>
      if ip = [] ∧ fp = [] then none
      else
        (decimalDigitsOpt ip).bind fun i =>
          (decimalDigitsOpt fp).map fun f => (i : ℚ) + (f : ℚ) / (10 : ℚ) ^ fp.length
  | _ => none

/-- Scale a mantissa by a power of ten. -/
def scaleByExponent (q : ℚ) (k : Int) : ℚ :=
  if 0 ≤ k then q * (10 : ℚ) ^ k.toNat else q / (10 : ℚ) ^ (-k).toNat

/-- StrUnsignedDecimalLiteral: the mathematical value of the literal,
rounded to a double. -/
def parseUnsignedDecimal (l : List Char) : Option JSNum :=
  if l = "Infinity".data then some (JSNum.inf false)
  else
    let isE : Char → Bool := fun c => c == 'e' || c == 'E'
    let m := l.takeWhile fun c => !isE c
    match l.dropWhile fun c => !isE c with
    | [] => (parseMantissa m).map roundQ
    | _ :: e =>
        (parseMantissa m).bind fun q =>
          (parseExponent e).map fun k => roundQ (scaleByExponent q k)

/-- Negation of a parsed literal. -/
def negNum : JSNum → JSNum
  | JSNum.fin q => JSNum.fin (-q)
  | JSNum.inf s => JSNum.inf (!s)
  | JSNum.nan => JSNum.nan

/-- StrNumericLiteral: a signed decimal literal or an unsigned binary, octal
or hexadecimal integer literal. -/
def parseNumericLiteral : List Char → Option JSNum
  | '0' :: 'x' :: ds => (digitsValue 16 ds).map fun n => roundQ n
  | '0' :: 'X' :: ds => (digitsValue 16 ds).map fun n => roundQ n
  | '0' :: 'o' :: ds => (digitsValue 8 ds).map fun n => roundQ n
  | '0' :: 'O' :: ds => (digitsValue 8 ds).map fun n => roundQ n
  | '0' :: 'b' :: ds => (digitsValue 2 ds).map fun n => roundQ n
  | '0' :: 'B' :: ds => (digitsValue 2 ds).map fun n => roundQ n
  | '+' :: ds => parseUnsignedDecimal ds
  | '-' :: ds => (parseUnsignedDecimal ds).map negNum
  | ds => parseUnsignedDecimal ds

/-- StringToNumber: white space is trimmed, the empty string is `0`, and a
string that is no numeric literal is `NaN`. -/
def stringToNumber (s : String) : JSNum :=
  let t := trimChars s.data
  if t = [] then JSNum.fin 0 else (parseNumericLiteral t).getD JSNum.nan

/-- The conversion `Number(v)`. -/
def toNumber : JSValue → JSNum
  | JSValue.null => JSNum.fin 0
  | JSValue.undefined => JSNum.nan
  | JSValue.bool b => if b then JSNum.fin 1 else JSNum.fin 0
  | JSValue.num n => n
  | JSValue.str s => stringToNumber s

/-! ## Grade engine (`gradeToGP`, `marksToGrade`) -/

/-- The object returned by `gradeToGP`; `gp = none` is `null`. -/
structure GPResult where
  gp : Option Nat
  excluded : Bool
  deriving DecidableEq

/-- The literal `map` of `gradeToGP`, in source order. -/
def gradeMap : List (String × Nat) :=
  [("A+", 10), ("A", 9), ("B+", 8), ("B", 7), ("C+", 6), ("C", 5), ("D", 4), ("F", 0)]

/-- Truthiness of a grade value (a string or `null`): a non-empty string. -/
def gradeTruthy : Option String → Bool
  | some s => s != ""
  | none => false

/-- The function `gradeToGP(grade, isFR)`; `grade = none` is `null`. -/
def gradeToGP (grade : Option String) (isFR : Bool) : GPResult :=
  if isFR || grade == some "FR" then { gp := some 0, excluded := true }
  else if !gradeTruthy grade then { gp := none, excluded := false }
  else
    let g := jsToUpperCase (jsTrim (grade.getD ""))
    match gradeMap.lookup g with
    | some v => { gp := some v, excluded := false }
    | none => { gp := none, excluded := false }

/-- The function `marksToGrade(marks)`; the result `none` is `null`. -/
def marksToGrade (marks : JSValue) : Option String :=
  if marks = JSValue.null ∨ marks = JSValue.str "" then none
  else
    let m := toNumber marks
    if m.isNaN then none
    else if m.ge 91 then some "A+"
    else if m.ge 81 then some "A"
    else if m.ge 71 then some "B+"
    else if m.ge 61 then some "B"
    else if m.ge 51 then some "C+"
    else if m.ge 46 then some "C"
    else if m.ge 40 then some "D"
    else some "F"

/-! ## Data model -/

/-- A subject row.  `grade = none` stands for a `null` or absent grade; the
id is an integer-valued number. -/
structure Subject where
  id : Int
  name : String
  credits : JSValue
  grade : Option String
  marks : JSValue
  isFR : Bool
  deriving DecidableEq

/-- A semester: an id and its subjects in display order. -/
structure Semester where
  id : Int
  subjects : List Subject
  deriving DecidableEq

/-- The three globals of the script. -/
structure State where
  sems : List Semester
  nextSemId : Int
  nextSubId : Int
  deriving DecidableEq

/-! ## Statistics (`getSemStats`, `getOverallStats`) -/

/-- The object returned by `getSemStats`. -/
structure SemStats where
  gpa : JSNum
  credits : JSNum
  hasData : Bool
  deriving DecidableEq

/-- The object returned by `getOverallStats`. -/
structure OverallStats where
  cgpa : JSNum
  percent : JSNum
  totalCredits : JSNum
  deriving DecidableEq

/-- The grade value `gVal` of a subject:
`(s.grade && s.grade !== '') ? s.grade : marksToGrade(s.marks)`. -/
def effectiveGrade (s : Subject) : Option String :=
  if gradeTruthy s.grade && s.grade != some "" then s.grade else marksToGrade s.marks

/-- A grade point used as a factor; `null` converts to `0`. -/
def gpToNumber : Option Nat → JSNum
  | some v => JSNum.fin v
  | none => JSNum.fin 0

/-- The body of the `forEach` callback over subjects, which `getSemStats`
and `getOverallStats` both spell out: the pair is `(sumC, sumGP)`,
respectively `(totalC, totalGP)`. -/
def accumulate (acc : JSNum × JSNum) (s : Subject) : JSNum × JSNum :=
  let gVal := effectiveGrade s
  let r := gradeToGP gVal s.isFR
  let cred := toNumber s.credits
  if !r.excluded && r.gp.isSome && cred.gt 0 then
    (acc.1 + cred, acc.2 + cred * gpToNumber r.gp)
  else acc

/-- The function `getSemStats(sem)`. -/
def getSemStats (sem : Semester) : SemStats :=
  let acc := sem.subjects.foldl accumulate (0, 0)
  { gpa := if acc.1.truthy then acc.2 / acc.1 else 0
    credits := acc.1
    hasData := acc.1.gt 0 }

/-- The function `getOverallStats()`, reading the global `sems`. -/
def getOverallStats (st : State) : OverallStats :=
  let acc := st.sems.foldl (fun acc sem => sem.subjects.foldl accumulate acc) (0, 0)
  let cgpa : JSNum := if acc.1.truthy then acc.2 / acc.1 else 0
  let percent : JSNum := if acc.1.truthy then (cgpa - JSNum.fin (1 / 2)) * 10 else 0
  { cgpa := cgpa, percent := percent, totalCredits := acc.1 }

/-! ## Session store -/

/-- The globals as the script declares them, before `load()` runs. -/
def initialState : State := { sems := [], nextSemId := 1, nextSubId := 1 }

/-- The value a counter holds after `++`: `n + 1` rounded to a double, which
is `n + 1` below `2 ^ 53` and an integer in every case.  (The sum of a
double and 1 never overflows; were `n` beyond the doubles, it is kept.) -/
def jsSucc (n : Int) : Int :=
  match roundQ ((n : ℚ) + 1) with
  | JSNum.fin q => q.floor
  | _ => n

/-- The function `newSubject()`: the new row and the state with the
post-incremented `nextSubId`. -/
def newSubject (st : State) : Subject × State :=
  ({ id := st.nextSubId, name := "", credits := JSValue.num (JSNum.fin 3), grade := some "",
     marks := JSValue.str "", isFR := false },
   { st with nextSubId := jsSucc st.nextSubId })

/-- The function `newSemester()`: the id is taken first, then the two rows. -/
def newSemester (st : State) : Semester × State :=
  let st1 := { st with nextSemId := jsSucc st.nextSemId }
  let r1 := newSubject st1
  let r2 := newSubject r1.2
  ({ id := st.nextSemId, subjects := [r1.1, r2.1] }, r2.2)

/-- The function `load()`.  `data` is the parsed content of the storage key
when it is a non-empty array of semesters; `none` covers a missing key, text
that does not parse, and a value that is no non-empty array. -/
def load (st : State) (data : Option (List Semester)) : State :=
  match data with
  | some (s :: ss) =>
      let sems := s :: ss
      { sems := sems
        nextSemId := jsSucc (sems.foldl (fun m s => max m s.id) 0)
        nextSubId :=
          jsSucc ((sems.flatMap fun s => s.subjects).foldl
            (fun m sub => max m (if sub.id = 0 then 0 else sub.id)) 0) }
  | _ =>
      let r1 := newSubject st
      let r2 := newSubject r1.2
      let r3 := newSubject r2.2
      { sems := [{ id := 1, subjects := [r1.1, r2.1, r3.1] }], nextSemId := 2, nextSubId := 4 }

/-- Apply `f` to the first element satisfying `p`: the in-place mutation of
the object that `Array.prototype.find` returned. -/
def modifyFirst {α : Type} (p : α → Bool) (f : α → α) : List α → List α
  | [] => []
  | a :: l => if p a then f a :: l else a :: modifyFirst p f l

/-- The `(field, val)` arguments of `updateSub`, for the five columns. -/
inductive FieldUpdate where
  | name (v : String)
  | credits (v : JSValue)
  | grade (v : Option String)
  | marks (v : JSValue)
  | isFR (v : Bool)
  deriving DecidableEq

/-- The assignment chain at the head of `updateSub`. -/
def setField (sub : Subject) : FieldUpdate → Subject
  | FieldUpdate.grade v => { sub with grade := v }
  | FieldUpdate.isFR v => { sub with isFR := v }
  | FieldUpdate.name v => { sub with name := v }
  | FieldUpdate.credits v => { sub with credits := v }
  | FieldUpdate.marks v => { sub with marks := v }

/-- The two "Auto-FR logic" statements of `updateSub`. -/
def autoFR (sub : Subject) (u : FieldUpdate) : Subject :=
  let s1 := if u = FieldUpdate.grade (some "FR") then { sub with isFR := true } else sub
  if u = FieldUpdate.isFR true then { s1 with grade := some "FR" } else s1

/-- The mutation of the found subject by `updateSub`. -/
def updateSubject (sub : Subject) (u : FieldUpdate) : Subject :=
  autoFR (setField sub u) u

/-- The action `updateSub(semId, subId, field, val)`; `none` when `find` gives
`undefined` for the semester or the subject (a `TypeError`, nothing mutated). -/
def updateSub (st : State) (semId subId : Int) (u : FieldUpdate) : Option State :=
  match st.sems.find? (fun s => s.id == semId) with
  | none => none
  | some sem =>
      match sem.subjects.find? (fun s => s.id == subId) with
      | none => none
      | some _ =>
          let onSubjects : List Subject → List Subject :=
            modifyFirst (fun x => x.id == subId) (fun x => updateSubject x u)
          let sems := modifyFirst (fun s => s.id == semId)
            (fun s => { s with subjects := onSubjects s.subjects }) st.sems
          some { st with sems := sems }

/-- The action `addSubject(semId)`; `none` when the semester is not found:
the `TypeError` is raised before `newSubject()` is called. -/
def addSubject (st : State) (semId : Int) : Option State :=
  match st.sems.find? (fun s => s.id == semId) with
  | none => none
  | some _ =>
      let r := newSubject st
      let sems := modifyFirst (fun s => s.id == semId)
        (fun s => { s with subjects := s.subjects ++ [r.1] }) r.2.sems
      some { r.2 with sems := sems }

/-- The action `removeSubject(semId, subId)`. -/
def removeSubject (st : State) (semId subId : Int) : Option State :=
  match st.sems.find? (fun s => s.id == semId) with
  | none => none
  | some _ =>
      let sems := modifyFirst (fun s => s.id == semId)
        (fun s => { s with subjects := s.subjects.filter fun x => x.id != subId }) st.sems
      some { st with sems := sems }

/-- The action `addSemester()`. -/
def addSemester (st : State) : State :=
  let r := newSemester st
  { r.2 with sems := r.2.sems ++ [r.1] }

/-- The action `removeSemester(id)`; `confirmed` is the answer to the dialog. -/
def removeSemester (st : State) (id : Int) (confirmed : Bool) : State :=
  if confirmed then { st with sems := st.sems.filter fun s => s.id != id } else st

/-- The `onload` callback of the file-upload handler.  `parsed` is the result
of `JSON.parse` on the file text when it is a list of semesters; `none` is a
parse failure, which leaves the globals as they are. -/
def importSession (st : State) (parsed : Option (List Semester)) : State :=
  match parsed with
  | some data => { st with sems := data }
  | none => st

/-- A user action on the session. -/
inductive Action where
  | updateSub (semId subId : Int) (u : FieldUpdate)
  | addSubject (semId : Int)
  | removeSubject (semId subId : Int)
  | addSemester
  | removeSemester (id : Int) (confirmed : Bool)
  deriving DecidableEq

/-- One action run to completion; an action that throws leaves the globals
untouched. -/
def step (st : State) : Action → State
  | Action.updateSub semId subId u => (updateSub st semId subId u).getD st
  | Action.addSubject semId => (addSubject st semId).getD st
  | Action.removeSubject semId subId => (removeSubject st semId subId).getD st
  | Action.addSemester => addSemester st
  | Action.removeSemester id confirmed => removeSemester st id confirmed

/-- A sequence of actions, each run to completion before the next. -/
def run (st : State) (as : List Action) : State := as.foldl step st

/-! ## Documented behaviour, for comparison with the code -/

/-- The documented grade table as a case distinction. -/
def tablePoint (g : String) : Option Nat :=
  if g = "A+" then some 10
  else if g = "A" then some 9
  else if g = "B+" then some 8
  else if g = "B" then some 7
  else if g = "C+" then some 6
  else if g = "C" then some 5
  else if g = "D" then some 4
  else if g = "F" then some 0
  else none

/-- The documented definition of `gradeToGP`: FR first, then the empty
grade, then the table on the trimmed, upper-cased grade. -/
def gradeToGPDoc (grade : Option String) (isFR : Bool) : GPResult :=
  if isFR = true ∨ grade = some "FR" then { gp := some 0, excluded := true }
  else
    match grade with
    | none => { gp := none, excluded := false }
    | some s =>
        if s = "" then { gp := none, excluded := false }
        else { gp := tablePoint (jsToUpperCase (jsTrim s)), excluded := false }

/-- The documented thresholds of `marksToGrade`, lower bounds inclusive. -/
def letterOfMarks (m : ℚ) : String :=
  if 91 ≤ m then "A+"
  else if 81 ≤ m then "A"
  else if 71 ≤ m then "B+"
  else if 61 ≤ m then "B"
  else if 51 ≤ m then "C+"
  else if 46 ≤ m then "C"
  else if 40 ≤ m then "D"
  else "F"

/-- The documented effective grade: the explicit grade if non-empty,
otherwise the grade derived from the marks. -/
def effectiveGradeDoc (s : Subject) : Option String :=
  match s.grade with
  | some g => if g = "" then marksToGrade s.marks else some g
  | none => marksToGrade s.marks

/-- The credits of a subject as a number, `Number(credits)`. -/
def creditsOf (s : Subject) : JSNum := toNumber s.credits

/-- The grade point result of a subject's effective grade. -/
def pointOf (s : Subject) : GPResult := gradeToGP (effectiveGradeDoc s) s.isFR

/-- A subject counts when its grade point is non-null and non-excluded and
its credits are `> 0`. -/
def isCounted (s : Subject) : Bool :=
  (pointOf s).gp.isSome && !(pointOf s).excluded && (creditsOf s).gt 0

/-- Documented `sumCredits`: the credits of the counted subjects. -/
def sumCredits (l : List Subject) : JSNum :=
  jsSum ((l.filter isCounted).map creditsOf)

/-- Documented `sumCreditPoints`: `credits * gp` over the counted subjects. -/
def sumCreditPoints (l : List Subject) : JSNum :=
  jsSum ((l.filter isCounted).map fun s => creditsOf s * gpToNumber (pointOf s).gp)

/-- Documented semester statistics. -/
def semStatsDoc (sem : Semester) : SemStats :=
  { gpa := if (sumCredits sem.subjects).gt 0 then
      sumCreditPoints sem.subjects / sumCredits sem.subjects else 0
    credits := sumCredits sem.subjects
    hasData := (sumCredits sem.subjects).gt 0 }

/-- A graded subject row with the given credits and grade. -/
def gradedSubject (id : Int) (credits : ℚ) (grade : String) : Subject :=
  { id := id, name := "", credits := JSValue.num (JSNum.fin credits), grade := some grade,
    marks := JSValue.str "", isFR := false }

/-- The documented example semester: (4, A) (3, B) (2, FR). -/
def exampleSemester : Semester :=
  { id := 1, subjects := [gradedSubject 1 4 "A", gradedSubject 2 3 "B", gradedSubject 3 2 "FR"] }

/-- A second semester with 3 counted credits and 21 points: (3, B). -/
def exampleSemester2 : Semester :=
  { id := 2, subjects := [gradedSubject 4 3 "B"] }

/-- The documented two-semester session. -/
def exampleSession : State :=
  { sems := [exampleSemester, exampleSemester2], nextSemId := 3, nextSubId := 5 }

/-- A number that is finite and not negative, or `+Infinity`: the shape of
an accumulated credit total. -/
def NonNegative (c : JSNum) : Prop :=
  (∃ a : ℚ, c = JSNum.fin a ∧ 0 ≤ a) ∨ c = JSNum.inf false

/-- A subject row with the credits as typed into the form, and a grade. -/
def typedSubject (id : Int) (credits : String) (grade : String) : Subject :=
  { id := id, name := "", credits := JSValue.str credits, grade := some grade,
    marks := JSValue.str "", isFR := false }

/-- Twice the credits of a subject, as a natural number (rounded down). -/
def halfCredits (s : Subject) : Nat :=
  match creditsOf s with
  | JSNum.fin q => (2 * q).floor.toNat
  | _ => 0

/-- The counted credits are whole or half numbers (multiples of 0.5, the
step of the credits field) and ten times their total is below `2 ^ 53`
half-units, so that every sum of credits and of points is exact. -/
def ExactCredits (l : List Subject) : Prop :=
  (∀ s ∈ l, isCounted s = true → creditsOf s = JSNum.fin ((halfCredits s : ℚ) / 2)) ∧
    10 * ((l.filter isCounted).map halfCredits).sum < 2 ^ 53

/-- Two semesters with whole credits: (3, A+) (4, B) and (1, C). -/
def roundingSession : State :=
  { sems := [{ id := 1, subjects := [gradedSubject 1 3 "A+", gradedSubject 2 4 "B"] },
             { id := 2, subjects := [gradedSubject 3 1 "C"] }],
    nextSemId := 3, nextSubId := 4 }

/-- Two semesters with credits typed as 0.1, 0.1 and 0.1, 0.4, all graded A. -/
def tenthsSession : State :=
  { sems := [{ id := 1, subjects := [typedSubject 1 "0.1" "A", typedSubject 2 "0.1" "A"] },
             { id := 2, subjects := [typedSubject 3 "0.1" "A", typedSubject 4 "0.4" "A"] }],
    nextSemId := 3, nextSubId := 5 }

/-- One semester with credits typed as 0.1 and 4.1, both graded A+. -/
def topSession : State :=
  { sems := [{ id := 1, subjects := [typedSubject 1 "0.1" "A+", typedSubject 2 "4.1" "A+"] }],
    nextSemId := 2, nextSubId := 3 }

/-- One semester with a single subject of credits 1e308, graded A+. -/
def hugeSemester : Semester :=
  { id := 1, subjects := [typedSubject 1 "1e308" "A+"] }

/-- A session whose only counted grade is F: one subject (3, F). -/
def failedSession : State :=
  { sems := [{ id := 1, subjects := [gradedSubject 1 3 "F"] }], nextSemId := 2, nextSubId := 2 }

/-- The grade and isFR fields of a subject agree. -/
def SyncedSubject (s : Subject) : Prop := s.isFR = true ↔ s.grade = some "FR"

/-- Every subject of the session has isFR set exactly when its grade is FR. -/
def Synced (st : State) : Prop :=
  ∀ sem ∈ st.sems, ∀ s ∈ sem.subjects, SyncedSubject s

/-- The call clears one half of an FR marking: it sets the grade to
something other than FR, or sets isFR to false. -/
def ClearsFR (u : FieldUpdate) : Prop :=
  (∃ v : Option String, u = FieldUpdate.grade v ∧ v ≠ some "FR") ∨ u = FieldUpdate.isFR false

/-- Every id in the session lies below the matching counter. -/
def IdsBelow (st : State) : Prop :=
  ∀ sem ∈ st.sems, sem.id < st.nextSemId ∧ ∀ s ∈ sem.subjects, s.id < st.nextSubId

/-- A session with one subject marked FR, in sync. -/
def frSession : State :=
  { sems := [{ id := 1, subjects := [{ gradedSubject 1 3 "FR" with isFR := true }] }],
    nextSemId := 2, nextSubId := 2 }

/-- The session `frSession` with the grade of its subject set to A and its
isFR flag still set. -/
def desyncedSession : State :=
  { sems := [{ id := 1, subjects := [{ gradedSubject 1 3 "A" with isFR := true }] }],
    nextSemId := 2, nextSubId := 2 }

/-- A stored snapshot whose semester id and subject id are both `2 ^ 53`. -/
def bigSnapshot : List Semester :=
  [{ id := 9007199254740992, subjects := [gradedSubject 9007199254740992 3 "A"] }]

/-- An imported file: one semester with id 2 holding one subject with id 4. -/
def importedSession : List Semester :=
  [{ id := 2, subjects := [gradedSubject 4 3 "A"] }]

/-- The state after the default start followed by the import of
`importedSession`. -/
def afterImport : State := importSession (load initialState none) (some importedSession)


/-! ## Theorems -/

/-! ### Arithmetic of `JSNum` -/

namespace JSNum

theorem ofNat_eq_fin (n : ℕ) : (OfNat.ofNat n : JSNum) = fin (n : ℚ) := rfl

theorem zero_eq_fin : (0 : JSNum) = fin 0 := by
  rw [ofNat_eq_fin]; simp

@[simp] theorem fin_add_fin (a b : ℚ) : fin a + fin b = roundQ (a + b) := rfl
@[simp] theorem fin_add_inf (a : ℚ) (s : Bool) : fin a + inf s = inf s := rfl
@[simp] theorem inf_add_fin (a : ℚ) (s : Bool) : inf s + fin a = inf s := rfl
@[simp] theorem inf_add_inf (s t : Bool) : inf s + inf t = if s = t then inf s else nan := rfl
@[simp] theorem nan_add (x : JSNum) : nan + x = nan := rfl
@[simp] theorem add_nan (x : JSNum) : x + nan = nan := by cases x <;> rfl
@[simp] theorem fin_mul_fin (a b : ℚ) : fin a * fin b = roundQ (a * b) := rfl
@[simp] theorem inf_mul_fin (b : ℚ) (s : Bool) :
    inf s * fin b = if b = 0 then nan else inf (if b < 0 then !s else s) := rfl
@[simp] theorem nan_mul (x : JSNum) : nan * x = nan := rfl
@[simp] theorem fin_sub_fin (a b : ℚ) : fin a - fin b = roundQ (a - b) := rfl
@[simp] theorem fin_div_fin (a b : ℚ) :
    fin a / fin b =
      if b = 0 then (if a = 0 then nan else inf (decide (a < 0))) else roundQ (a / b) :=
  rfl
@[simp] theorem fin_div_inf (a : ℚ) (s : Bool) : fin a / inf s = fin 0 := rfl
@[simp] theorem inf_div_inf (s t : Bool) : inf s / inf t = nan := rfl
@[simp] theorem nan_div (x : JSNum) : nan / x = nan := rfl
@[simp] theorem ge_fin (a b : ℚ) : (fin a).ge (fin b) = decide (b ≤ a) := rfl
@[simp] theorem gt_fin (a b : ℚ) : (fin a).gt (fin b) = decide (b < a) := rfl
@[simp] theorem gt_inf_fin (s : Bool) (b : ℚ) : (inf s).gt (fin b) = !s := rfl
@[simp] theorem gt_nan (x : JSNum) : nan.gt x = false := rfl
@[simp] theorem truthy_fin (a : ℚ) : (fin a).truthy = decide (a ≠ 0) := rfl
@[simp] theorem truthy_inf (s : Bool) : (inf s).truthy = true := rfl
@[simp] theorem truthy_nan : nan.truthy = false := rfl
@[simp] theorem isNaN_fin (a : ℚ) : (fin a).isNaN = false := rfl
@[simp] theorem isNaN_inf (s : Bool) : (inf s).isNaN = false := rfl
@[simp] theorem isNaN_nan : nan.isNaN = true := rfl

end JSNum

/-! ### Rounding -/

theorem pow2_pos (u : Int) : 0 < pow2 u := by
  unfold pow2
  split_ifs <;> positivity

theorem roundMagnitude_nonneg (n d : Nat) : 0 ≤ roundMagnitude n d := by
  unfold roundMagnitude
  exact mul_nonneg (Nat.cast_nonneg _) (le_of_lt (pow2_pos _))

theorem roundQ_zero : roundQ 0 = JSNum.fin 0 := by
  simp [roundQ]

theorem roundQ_nonNegative (q : ℚ) (h : 0 ≤ q) : NonNegative (roundQ q) := by
  unfold roundQ
  have hneg : ¬ q < 0 := not_lt.mpr h
  split_ifs
  · exact Or.inl ⟨0, rfl, le_refl _⟩
  · right; simp [hneg]
  · exact Or.inl ⟨_, rfl, roundMagnitude_nonneg _ _⟩

/-! ### Grade conversion -/

theorem lookup_gradeMap (g : String) : gradeMap.lookup g = tablePoint g := by
  unfold gradeMap tablePoint
  by_cases h1 : g = "A+"
  · subst h1; decide
  by_cases h2 : g = "A"
  · subst h2; decide
  by_cases h3 : g = "B+"
  · subst h3; decide
  by_cases h4 : g = "B"
  · subst h4; decide
  by_cases h5 : g = "C+"
  · subst h5; decide
  by_cases h6 : g = "C"
  · subst h6; decide
  by_cases h7 : g = "D"
  · subst h7; decide
  by_cases h8 : g = "F"
  · subst h8; decide
  have e1 : (g == "A+") = false := by simpa using h1
  have e2 : (g == "A") = false := by simpa using h2
  have e3 : (g == "B+") = false := by simpa using h3
  have e4 : (g == "B") = false := by simpa using h4
  have e5 : (g == "C+") = false := by simpa using h5
  have e6 : (g == "C") = false := by simpa using h6
  have e7 : (g == "D") = false := by simpa using h7
  have e8 : (g == "F") = false := by simpa using h8
  simp only [List.lookup, e1, e2, e3, e4, e5, e6, e7, e8, h1, h2, h3, h4, h5, h6, h7, h8,
    if_false]

theorem tablePoint_le_ten (g : String) (v : Nat) (h : tablePoint g = some v) : v ≤ 10 := by
  unfold tablePoint at h
  split_ifs at h <;> simp at h <;> omega

/-- C3: for every grade value and every isFR flag, `gradeToGP` returns what
its documented definition returns: `gp 0, excluded` when isFR is set or the
grade is exactly FR; `gp null` for an empty grade; otherwise the table entry
of the trimmed, upper-cased grade, and `gp null` when the table has none. -/
theorem gradeToGP_eq_doc (grade : Option String) (isFR : Bool) :
    gradeToGP grade isFR = gradeToGPDoc grade isFR := by
  unfold gradeToGP gradeToGPDoc
  cases isFR with
  | true => simp
  | false =>
    cases grade with
    | none => simp [gradeTruthy]
    | some s =>
      by_cases hFR : s = "FR"
      · simp [hFR]
      · by_cases he : s = ""
        · simp [he, gradeTruthy]
        · simp only [lookup_gradeMap, Option.getD_some]
          generalize tablePoint (jsToUpperCase (jsTrim s)) = r
          cases r <;> simp [hFR, he, gradeTruthy]

theorem gradeToGP_table_values :
    gradeToGP (some "A+") false = ⟨some 10, false⟩ ∧ gradeToGP (some "A") false = ⟨some 9, false⟩ ∧
    gradeToGP (some "B+") false = ⟨some 8, false⟩ ∧ gradeToGP (some "B") false = ⟨some 7, false⟩ ∧
    gradeToGP (some "C+") false = ⟨some 6, false⟩ ∧ gradeToGP (some "C") false = ⟨some 5, false⟩ ∧
    gradeToGP (some "D") false = ⟨some 4, false⟩ ∧ gradeToGP (some "F") false = ⟨some 0, false⟩ ∧
    gradeToGP (some " a+ ") false = ⟨some 10, false⟩ ∧ gradeToGP (some "E") false = ⟨none, false⟩ ∧
    gradeToGP (some "A") true = ⟨some 0, true⟩ ∧ gradeToGP (some "FR") false = ⟨some 0, true⟩ ∧
    gradeToGP (some "fr") false = ⟨none, false⟩ ∧ gradeToGP (some "") false = ⟨none, false⟩ ∧
    gradeToGP none false = ⟨none, false⟩ := by
  decide

theorem gp_le_ten (grade : Option String) (isFR : Bool) (v : Nat)
    (h : (gradeToGP grade isFR).gp = some v) : v ≤ 10 := by
  unfold gradeToGP at h
  split_ifs at h
  · simp at h; omega
  · simp only [lookup_gradeMap] at h
    cases ht : tablePoint (jsToUpperCase (jsTrim (grade.getD ""))) with
    | none => rw [ht] at h; simp at h
    | some w =>
      rw [ht] at h
      simp only [Option.some.injEq] at h
      subst h
      exact tablePoint_le_ten _ _ ht

/-! ### Marks -/

theorem marksToGrade_of_fin (v : JSValue) (m : ℚ) (h0 : v ≠ JSValue.null)
    (h1 : v ≠ JSValue.str "") (hm : toNumber v = JSNum.fin m) :
    marksToGrade v = some (letterOfMarks m) := by
  unfold marksToGrade letterOfMarks
  simp only [h0, h1, or_self, if_false, hm, JSNum.ofNat_eq_fin, JSNum.ge_fin, JSNum.isNaN_fin,
    Nat.cast_ofNat]
  simp only [decide_eq_true_eq, Bool.false_eq_true, if_false]
  split_ifs <;> rfl

theorem marksToGrade_of_nan (v : JSValue) (hm : toNumber v = JSNum.nan) :
    marksToGrade v = none := by
  unfold marksToGrade
  simp [hm]

/-- C4: `marksToGrade` follows the documented thresholds on every exact
rational mark (as a number, or as a non-empty string that reads as that
number), each lower bound inclusive, and returns null for null, for the
empty string and for every value whose `Number(...)` is NaN, such as a
string that is not a number. -/
theorem marksToGrade_documented :
    (∀ m : ℚ, marksToGrade (JSValue.num (JSNum.fin m)) = some (letterOfMarks m)) ∧
    (∀ (s : String) (m : ℚ), s ≠ "" → stringToNumber s = JSNum.fin m →
      marksToGrade (JSValue.str s) = some (letterOfMarks m)) ∧
    marksToGrade JSValue.null = none ∧
    marksToGrade (JSValue.str "") = none ∧
    (∀ v : JSValue, toNumber v = JSNum.nan → marksToGrade v = none) ∧
    (stringToNumber "abc" = JSNum.nan ∧ marksToGrade (JSValue.str "abc") = none) ∧
    (letterOfMarks 91 = "A+" ∧ letterOfMarks (181 / 2) = "A" ∧ letterOfMarks 81 = "A" ∧
      letterOfMarks 71 = "B+" ∧ letterOfMarks 61 = "B" ∧ letterOfMarks 51 = "C+" ∧
      letterOfMarks 46 = "C" ∧ letterOfMarks 40 = "D" ∧ letterOfMarks (399 / 10) = "F") := by
  refine ⟨fun m => marksToGrade_of_fin _ m (by simp) (by simp) rfl, ?_, by decide, by decide,
    marksToGrade_of_nan, ⟨by decide, by decide⟩, ?_⟩
  · intro s m hs hm
    exact marksToGrade_of_fin _ m (by simp) (by simpa using hs) hm
  · unfold letterOfMarks
    norm_num

/-- C4 at concrete marks: the cutoff 91 gives A+, 90.5 gives A (as a number
and as the text "90.5"), and text that is no number gives null. -/
theorem marksToGrade_documented_witness :
    marksToGrade (JSValue.num (JSNum.fin 91)) = some "A+" ∧
    marksToGrade (JSValue.num (JSNum.fin (181 / 2))) = some "A" ∧
    marksToGrade (JSValue.str "90.5") = some "A" ∧
    marksToGrade (JSValue.str "12px") = none := by
  have h := marksToGrade_documented
  refine ⟨?_, ?_, ?_, ?_⟩
  · rw [h.1 91]; simp [h.2.2.2.2.2.2.1]
  · rw [h.1 (181 / 2)]; simp [h.2.2.2.2.2.2.2.1]
  · rw [h.2.1 "90.5" (181 / 2) (by decide) (by decide!)]; simp [h.2.2.2.2.2.2.2.1]
  · exact h.2.2.2.2.1 _ (by decide)

/-- White space alone reads as the number 0 under `Number(...)`, and a
boolean as 0 or 1: both are numeric input for `marksToGrade`, graded F. -/
theorem marksToGrade_blank_text :
    stringToNumber " " = JSNum.fin 0 ∧ marksToGrade (JSValue.str " ") = some "F" ∧
    marksToGrade (JSValue.bool true) = some "F" := by
  decide!

/-- The rounding on known doubles: 0.1, the sum 0.1 + 4.1 =
4.199999999999999, the tie `2 ^ 53 + 1`, the overflow of 1e308 * 10, and
numeric text that underflows to 0, overflows to Infinity, or is the least
subnormal 5e-324. -/
theorem roundQ_examples :
    roundQ (1 / 10) = JSNum.fin (3602879701896397 / 36028797018963968) ∧
    stringToNumber "0.1" + stringToNumber "4.1" =
      JSNum.fin (4728779608739020 / 1125899906842624) ∧
    roundQ 9007199254740993 = JSNum.fin 9007199254740992 ∧
    stringToNumber "1e308" * 10 = JSNum.inf false ∧
    stringToNumber "1e-400" = JSNum.fin 0 ∧
    stringToNumber "1e400" = JSNum.inf false ∧
    stringToNumber "5e-324" = JSNum.fin (pow2 (-1074)) ∧
    stringToNumber "2e-324" = JSNum.fin 0 := by
  decide!

/-! ### Rounding: the binary exponent -/

theorem pow2_eq_zpow (u : Int) : pow2 u = (2 : ℚ) ^ u := by
  unfold pow2
  split_ifs with h
  · obtain ⟨k, rfl⟩ := Int.eq_ofNat_of_zero_le h
    simp
  · push_neg at h
    obtain ⟨k, hk⟩ := Int.eq_ofNat_of_zero_le (show 0 ≤ -u by omega)
    have hu : u = -(k : Int) := by omega
    subst hu
    simp

theorem log2Aux_spec (fuel n : Nat) (hf : n ≤ fuel) (hn : n ≠ 0) :
    2 ^ log2Aux fuel n ≤ n ∧ n < 2 ^ (log2Aux fuel n + 1) := by
  induction fuel generalizing n with
  | zero => omega
  | succ fuel ih =>
    unfold log2Aux
    split_ifs with h2
    · have := ih (n / 2) (by omega) (by omega)
      constructor
      · rw [pow_succ]; omega
      · rw [pow_succ]; omega
    · constructor <;> simp <;> omega

theorem natLog2_spec (n : Nat) (hn : n ≠ 0) :
    2 ^ natLog2 n ≤ n ∧ n < 2 ^ (natLog2 n + 1) :=
  log2Aux_spec n n (le_refl _) hn

theorem scaled_eq (n d : Nat) (u : Int) :
    ((n * 2 ^ (-u).toNat : Nat) : ℚ) / ((d * 2 ^ u.toNat : Nat) : ℚ) =
      (n : ℚ) / d / pow2 u := by
  rw [pow2_eq_zpow]
  rcases le_total 0 u with h | h
  · obtain ⟨k, rfl⟩ := Int.eq_ofNat_of_zero_le h
    have : (-(k : Int)).toNat = 0 := by omega
    simp [this, div_div]
  · obtain ⟨k, hk⟩ := Int.eq_ofNat_of_zero_le (show 0 ≤ -u by omega)
    have hu : u = -(k : Int) := by omega
    subst hu
    have : (-(k : Int)).toNat = 0 := by omega
    simp [this]
    field_simp

theorem floorLog2_test (n d : Nat) (hd : d ≠ 0) (e : Int) :
    (d * 2 ^ e.toNat ≤ n * 2 ^ (-e).toNat) ↔ pow2 e ≤ (n : ℚ) / d := by
  have hdq : (0 : ℚ) < d := by exact_mod_cast Nat.pos_of_ne_zero hd
  rw [pow2_eq_zpow, le_div_iff₀ hdq, ← Nat.cast_le (α := ℚ)]
  rcases le_total 0 e with h | h
  · obtain ⟨k, rfl⟩ := Int.eq_ofNat_of_zero_le h
    have : (-(k : Int)).toNat = 0 := by omega
    simp [this, mul_comm]
  · obtain ⟨k, hk⟩ := Int.eq_ofNat_of_zero_le (show 0 ≤ -e by omega)
    have hu : e = -(k : Int) := by omega
    subst hu
    have : (-(k : Int)).toNat = 0 := by omega
    have h2 : (0 : ℚ) < 2 ^ k := by positivity
    simp only [this, neg_neg, Int.toNat_ofNat, pow_zero, mul_one, Nat.cast_mul, Nat.cast_pow,
      Nat.cast_ofNat, zpow_neg, zpow_natCast]
    rw [inv_mul_le_iff₀ h2, mul_comm]

theorem floorLog2_spec (n d : Nat) (hn : n ≠ 0) (hd : d ≠ 0) :
    pow2 (floorLog2 n d) ≤ (n : ℚ) / d ∧ (n : ℚ) / d < pow2 (floorLog2 n d + 1) := by
  have hdq : (0 : ℚ) < d := by exact_mod_cast Nat.pos_of_ne_zero hd
  obtain ⟨hn1, hn2⟩ := natLog2_spec n hn
  obtain ⟨hd1, hd2⟩ := natLog2_spec d hd
  have hn1q : (2 : ℚ) ^ (natLog2 n) ≤ n := by exact_mod_cast hn1
  have hn2q : (n : ℚ) < 2 ^ (natLog2 n + 1) := by exact_mod_cast hn2
  have hd1q : (2 : ℚ) ^ (natLog2 d) ≤ d := by exact_mod_cast hd1
  have hd2q : (d : ℚ) < 2 ^ (natLog2 d + 1) := by exact_mod_cast hd2
  have hLn : (0 : ℚ) < 2 ^ (natLog2 n) := by positivity
  have hLd : (0 : ℚ) < 2 ^ (natLog2 d) := by positivity
  have two_ne : (2 : ℚ) ≠ 0 := by norm_num
  have he : (2 : ℚ) ^ ((natLog2 n : Int) - (natLog2 d : Int)) =
      2 ^ (natLog2 n) / 2 ^ (natLog2 d) := by
    rw [zpow_sub₀ two_ne, zpow_natCast, zpow_natCast]
  unfold floorLog2
  simp only
  split_ifs with ht
  · rw [floorLog2_test n d hd] at ht
    refine ⟨ht, ?_⟩
    rw [pow2_eq_zpow, zpow_add_one₀ two_ne, he, div_lt_iff₀ hdq]
    calc (n : ℚ) < 2 ^ (natLog2 n + 1) := hn2q
      _ = 2 ^ natLog2 n / 2 ^ natLog2 d * 2 * 2 ^ natLog2 d := by
          rw [pow_succ]; field_simp
      _ ≤ 2 ^ natLog2 n / 2 ^ natLog2 d * 2 * d := by
          apply mul_le_mul_of_nonneg_left hd1q; positivity
  · rw [floorLog2_test n d hd, not_le] at ht
    constructor
    · rw [pow2_eq_zpow, zpow_sub_one₀ two_ne, he, le_div_iff₀ hdq]
      calc 2 ^ natLog2 n / 2 ^ natLog2 d * 2⁻¹ * (d : ℚ)
          ≤ 2 ^ natLog2 n / 2 ^ natLog2 d * 2⁻¹ * 2 ^ (natLog2 d + 1) := by
            apply mul_le_mul_of_nonneg_left (le_of_lt hd2q); positivity
        _ = 2 ^ natLog2 n := by rw [pow_succ]; field_simp
        _ ≤ n := hn1q
    · rw [sub_add_cancel]; exact ht

/-! ### Rounding: bounds and exact values -/

theorem pow2_lt_pow2 {a b : Int} (h : pow2 a < pow2 b) : a < b := by
  rw [pow2_eq_zpow, pow2_eq_zpow] at h
  exact (zpow_lt_zpow_iff_right₀ (by norm_num : (1 : ℚ) < 2)).mp h

theorem pow2_le_pow2 {a b : Int} (h : a ≤ b) : pow2 a ≤ pow2 b := by
  rw [pow2_eq_zpow, pow2_eq_zpow]
  exact zpow_le_zpow_right₀ (by norm_num) h

theorem pow2_add (a : Int) (k : Nat) : pow2 (a + k) = pow2 a * 2 ^ k := by
  rw [pow2_eq_zpow, pow2_eq_zpow, zpow_add₀ (by norm_num : (2 : ℚ) ≠ 0), zpow_natCast]

theorem roundHalfEven_le (n d k : Nat) (hd : 0 < d) (h : n ≤ k * d) : roundHalfEven n d ≤ k := by
  have hdiv : n / d ≤ k := by
    apply Nat.div_le_of_le_mul
    rw [Nat.mul_comm]; exact h
  have hmod := Nat.div_add_mod n d
  unfold roundHalfEven
  by_cases hlt : n / d < k
  · split_ifs <;> omega
  · have hk : n / d = k := by omega
    have h0 : n % d = 0 := by
      rw [hk, Nat.mul_comm] at hmod
      omega
    simp [h0, hd, hk]

theorem le_roundHalfEven (n d k : Nat) (hd : 0 < d) (h : k * d ≤ n) : k ≤ roundHalfEven n d := by
  have hdiv : k ≤ n / d := (Nat.le_div_iff_mul_le hd).mpr h
  unfold roundHalfEven
  split_ifs <;> omega

/-- The rounded magnitude of a positive fraction does not exceed a bound
that lies on the grid of its unit in the last place. -/
theorem roundMagnitude_le (n d k : Nat) (hd : d ≠ 0)
    (h : (n : ℚ) / d ≤ k * pow2 (ulpExponent n d)) :
    roundMagnitude n d ≤ k * pow2 (ulpExponent n d) := by
  have hp := pow2_pos (ulpExponent n d)
  unfold roundMagnitude
  apply mul_le_mul_of_nonneg_right _ (le_of_lt hp)
  have hD : 0 < d * 2 ^ (ulpExponent n d).toNat := by positivity
  have hDq : (0 : ℚ) < ((d * 2 ^ (ulpExponent n d).toNat : Nat) : ℚ) := by exact_mod_cast hD
  have hs : ((n * 2 ^ (-ulpExponent n d).toNat : Nat) : ℚ) ≤
      (k : ℚ) * ((d * 2 ^ (ulpExponent n d).toNat : Nat) : ℚ) := by
    rw [← div_le_iff₀ hDq, scaled_eq, div_le_iff₀ hp]
    exact h
  exact_mod_cast roundHalfEven_le _ _ k hD (by exact_mod_cast hs)

theorem le_roundMagnitude (n d k : Nat) (hd : d ≠ 0)
    (h : k * pow2 (ulpExponent n d) ≤ (n : ℚ) / d) :
    k * pow2 (ulpExponent n d) ≤ roundMagnitude n d := by
  have hp := pow2_pos (ulpExponent n d)
  unfold roundMagnitude
  apply mul_le_mul_of_nonneg_right _ (le_of_lt hp)
  have hD : 0 < d * 2 ^ (ulpExponent n d).toNat := by positivity
  have hDq : (0 : ℚ) < ((d * 2 ^ (ulpExponent n d).toNat : Nat) : ℚ) := by exact_mod_cast hD
  have hs : (k : ℚ) * ((d * 2 ^ (ulpExponent n d).toNat : Nat) : ℚ) ≤
      ((n * 2 ^ (-ulpExponent n d).toNat : Nat) : ℚ) := by
    rw [← le_div_iff₀ hDq, scaled_eq, le_div_iff₀ hp]
    exact h
  exact_mod_cast le_roundHalfEven _ _ k hD (by exact_mod_cast hs)

/-- A positive fraction below `2 ^ (w + 53)` has its unit in the last place
at or below `2 ^ w`, for `w` not below the subnormal exponent. -/
theorem ulpExponent_le (n d : Nat) (hn : n ≠ 0) (hd : d ≠ 0) (w : Int) (hw : -1074 ≤ w)
    (h : (n : ℚ) / d < pow2 (w + 53)) : ulpExponent n d ≤ w := by
  have hE := pow2_lt_pow2 (lt_of_le_of_lt (floorLog2_spec n d hn hd).1 h)
  unfold ulpExponent
  exact max_le (by omega) hw

/-- On the grid of `2 ^ w`: every `m * 2 ^ w` is a multiple of a finer unit. -/
theorem grid_refine (m : Nat) (u w : Int) (h : u ≤ w) :
    (m : ℚ) * pow2 w = ((m * 2 ^ (w - u).toNat : Nat) : ℚ) * pow2 u := by
  obtain ⟨k, hk⟩ := Int.eq_ofNat_of_zero_le (show 0 ≤ w - u by omega)
  have hw : w = u + k := by omega
  rw [hk, hw, pow2_add]
  simp
  ring

theorem num_div_den (q : ℚ) (hq : 0 < q) : ((q.num.natAbs : Nat) : ℚ) / (q.den : ℚ) = q := by
  have hnum : 0 < q.num := Rat.num_pos.mpr hq
  have : ((q.num.natAbs : Nat) : ℚ) = (q.num : ℚ) := by
    rw [Nat.cast_natAbs, abs_of_pos hnum]
  rw [this]
  exact Rat.num_div_den q

theorem natAbs_num_ne_zero (q : ℚ) (hq : 0 < q) : q.num.natAbs ≠ 0 := by
  have hnum : 0 < q.num := Rat.num_pos.mpr hq
  omega

/-- Rounding keeps a positive value at or below a double `m * 2 ^ w`
(`m < 2 ^ 53`, finite) that it does not exceed. -/
theorem roundQ_le (q : ℚ) (hq : 0 < q) (m : Nat) (w : Int) (hw : -1074 ≤ w)
    (hm : m < 2 ^ 53) (hfin : (m : ℚ) * pow2 w < pow2 1024) (h : q ≤ m * pow2 w) :
    ∃ r : ℚ, roundQ q = JSNum.fin r ∧ 0 ≤ r ∧ r ≤ m * pow2 w := by
  have hn := natAbs_num_ne_zero q hq
  have hd : q.den ≠ 0 := q.den_nz
  have hqe := num_div_den q hq
  have hlt : ((q.num.natAbs : Nat) : ℚ) / (q.den : ℚ) < pow2 (w + 53) := by
    rw [hqe, show w + 53 = w + ((53 : Nat) : Int) by norm_num, pow2_add]
    have hp := pow2_pos w
    have : (m : ℚ) < 2 ^ 53 := by exact_mod_cast hm
    calc q ≤ m * pow2 w := h
      _ < 2 ^ 53 * pow2 w := by apply mul_lt_mul_of_pos_right this hp
      _ = pow2 w * 2 ^ 53 := by ring
  have hu := ulpExponent_le _ _ hn hd w hw hlt
  have hgrid := grid_refine m _ w hu
  have hle := roundMagnitude_le q.num.natAbs q.den _ hd (by rw [hqe, ← hgrid]; exact h)
  rw [← hgrid] at hle
  unfold roundQ
  have hne : q ≠ 0 := ne_of_gt hq
  have hnneg : ¬ q < 0 := not_lt.mpr (le_of_lt hq)
  have hnover : ¬ pow2 1024 ≤ roundMagnitude q.num.natAbs q.den :=
    not_le.mpr (lt_of_le_of_lt hle hfin)
  simp only [hne, hnover, hnneg, if_false]
  exact ⟨_, rfl, roundMagnitude_nonneg _ _, hle⟩

/-- Rounding keeps a positive value at or above a double `m * 2 ^ w` on the
grid of its own unit in the last place. -/
theorem le_roundQ_of_grid (q : ℚ) (hq : 0 < q) (k : Nat)
    (h : k * pow2 (ulpExponent q.num.natAbs q.den) ≤ q) :
    roundQ q = JSNum.inf false ∨
      ∃ r : ℚ, roundQ q = JSNum.fin r ∧ k * pow2 (ulpExponent q.num.natAbs q.den) ≤ r := by
  have hd : q.den ≠ 0 := q.den_nz
  have hqe := num_div_den q hq
  have hge := le_roundMagnitude q.num.natAbs q.den k hd (by rw [hqe]; exact h)
  unfold roundQ
  have hne : q ≠ 0 := ne_of_gt hq
  have hnneg : ¬ q < 0 := not_lt.mpr (le_of_lt hq)
  simp only [hne, hnneg, if_false]
  split_ifs
  · left; simp
  · right; exact ⟨_, rfl, hge⟩

/-- A double `m * 2 ^ w` (`m < 2 ^ 53`, finite) rounds to itself. -/
theorem roundQ_exact (m : Nat) (w : Int) (hw : -1074 ≤ w) (hm : m < 2 ^ 53)
    (hfin : (m : ℚ) * pow2 w < pow2 1024) : roundQ (m * pow2 w) = JSNum.fin (m * pow2 w) := by
  by_cases hm0 : m = 0
  · subst hm0; simp [roundQ_zero]
  have hq : (0 : ℚ) < m * pow2 w :=
    mul_pos (by exact_mod_cast Nat.pos_of_ne_zero hm0) (pow2_pos w)
  obtain ⟨r, hr, -, hle⟩ := roundQ_le _ hq m w hw hm hfin (le_refl _)
  have hn := natAbs_num_ne_zero _ hq
  have hd : ((m : ℚ) * pow2 w).den ≠ 0 := Rat.den_nz _
  have hqe := num_div_den _ hq
  have hlt : ((((m : ℚ) * pow2 w).num.natAbs : Nat) : ℚ) / ((((m : ℚ) * pow2 w).den : Nat) : ℚ) <
      pow2 (w + 53) := by
    rw [hqe, show w + 53 = w + ((53 : Nat) : Int) by norm_num, pow2_add]
    have hp := pow2_pos w
    have : (m : ℚ) < 2 ^ 53 := by exact_mod_cast hm
    calc (m : ℚ) * pow2 w < 2 ^ 53 * pow2 w := by apply mul_lt_mul_of_pos_right this hp
      _ = pow2 w * 2 ^ 53 := by ring
  have hu := ulpExponent_le _ _ hn hd w hw hlt
  have hgrid := grid_refine m _ w hu
  rcases le_roundQ_of_grid _ hq _ (le_of_eq hgrid.symm) with hinf | ⟨r', hr', hge⟩
  · rw [hinf] at hr; cases hr
  · rw [hr] at hr'
    cases hr'
    rw [← hgrid] at hge
    rw [hr, le_antisymm hle hge]

theorem roundQ_neg (q : ℚ) : roundQ (-q) = negNum (roundQ q) := by
  unfold roundQ
  by_cases h0 : q = 0
  · simp [h0, negNum]
  · have h0' : -q ≠ 0 := neg_ne_zero.mpr h0
    simp only [h0, h0', if_false, Rat.num_neg_eq_neg_num, Int.natAbs_neg, Rat.den_neg_eq_den,
      neg_lt_zero]
    rcases lt_or_gt_of_ne h0 with hlt | hgt
    · have h1 : ¬ 0 < q := not_lt.mpr (le_of_lt hlt)
      split_ifs <;> simp [negNum, hlt, h1]
    · have h1 : ¬ q < 0 := not_lt.mpr (le_of_lt hgt)
      split_ifs <;> simp [negNum, hgt, h1]

/-! ### Counters -/

theorem pow2_natCast (k : Nat) : pow2 (k : Int) = 2 ^ k := by
  rw [pow2_eq_zpow, zpow_natCast]

theorem pow2_zero : pow2 0 = 1 := by
  simp [pow2]

theorem two_pow_53_lt : (2 : ℚ) ^ 53 < pow2 1024 := by
  rw [show (1024 : Int) = ((1024 : Nat) : Int) by norm_num, pow2_natCast]
  exact pow_lt_pow_right₀ (by norm_num) (by norm_num)

/-- A natural number up to `2 ^ 53` is a double. -/
theorem roundQ_natCast (k : Nat) (hk : k ≤ 2 ^ 53) : roundQ (k : ℚ) = JSNum.fin k := by
  rcases Nat.lt_or_eq_of_le hk with hlt | heq
  · have h := roundQ_exact k 0 (by norm_num) hlt (by
      rw [pow2_zero, mul_one]
      have : (k : ℚ) < 2 ^ 53 := by exact_mod_cast hlt
      exact lt_trans this two_pow_53_lt)
    simpa [pow2_zero] using h
  · have h := roundQ_exact (2 ^ 52) 1 (by norm_num) (by norm_num) (by
      have h1 : pow2 1 = 2 := by simp [pow2]
      rw [h1]
      have : ((2 ^ 52 : Nat) : ℚ) * 2 = 2 ^ 53 := by norm_num
      rw [this]
      exact two_pow_53_lt)
    have h1 : pow2 1 = 2 := by simp [pow2]
    have h2 : ((2 ^ 52 : Nat) : ℚ) * pow2 1 = (k : ℚ) := by
      rw [h1, heq]; norm_num
    rw [h2] at h
    exact h

/-- Below `2 ^ 53` the increment of a counter is exact. -/
theorem jsSucc_eq (n : Int) (h0 : 0 ≤ n) (h : n < 2 ^ 53) : jsSucc n = n + 1 := by
  obtain ⟨k, rfl⟩ := Int.eq_ofNat_of_zero_le h0
  have hk : k + 1 ≤ 2 ^ 53 := by
    have : (k : Int) < 2 ^ 53 := h
    exact_mod_cast this
  have hr := roundQ_natCast (k + 1) hk
  unfold jsSucc
  have hcast : (((k : Int) : ℚ) + 1) = ((k + 1 : Nat) : ℚ) := by push_cast; ring
  rw [hcast, hr]
  show ⌊((k + 1 : Nat) : ℚ)⌋ = (k : Int) + 1
  rw [Int.floor_natCast]
  push_cast
  ring

/-- From `2 ^ 53` on, the increment never brings a counter back below
`2 ^ 53`. -/
theorem le_jsSucc (n : Int) (h : 2 ^ 53 ≤ n) : 2 ^ 53 ≤ jsSucc n := by
  have hq : (0 : ℚ) < (n : ℚ) + 1 := by
    have : (0 : ℚ) ≤ (n : ℚ) := by exact_mod_cast (le_trans (by norm_num) h)
    linarith
  have h53 : pow2 53 ≤ (n : ℚ) + 1 := by
    rw [show (53 : Int) = ((53 : Nat) : Int) by norm_num, pow2_natCast]
    have : ((2 : ℚ) ^ 53) ≤ (n : ℚ) := by exact_mod_cast h
    linarith
  have hn := natAbs_num_ne_zero _ hq
  have hd : ((n : ℚ) + 1).den ≠ 0 := Rat.den_nz _
  have hqe := num_div_den _ hq
  have hspec := floorLog2_spec _ _ hn hd
  rw [hqe] at hspec
  have hE : (53 : Int) ≤ floorLog2 ((n : ℚ) + 1).num.natAbs ((n : ℚ) + 1).den := by
    have := pow2_lt_pow2 (lt_of_le_of_lt h53 hspec.2)
    omega
  have hu : ulpExponent ((n : ℚ) + 1).num.natAbs ((n : ℚ) + 1).den ≤
      floorLog2 ((n : ℚ) + 1).num.natAbs ((n : ℚ) + 1).den := by
    unfold ulpExponent
    exact max_le (by omega) (by omega)
  have hgrid := grid_refine 1 _ _ hu
  rw [Nat.cast_one, one_mul] at hgrid
  have hle : ((1 * 2 ^ (floorLog2 ((n : ℚ) + 1).num.natAbs ((n : ℚ) + 1).den -
      ulpExponent ((n : ℚ) + 1).num.natAbs ((n : ℚ) + 1).den).toNat : Nat) : ℚ) *
      pow2 (ulpExponent ((n : ℚ) + 1).num.natAbs ((n : ℚ) + 1).den) ≤ (n : ℚ) + 1 := by
    rw [← hgrid]; exact hspec.1
  unfold jsSucc
  rcases le_roundQ_of_grid _ hq _ hle with hinf | ⟨r, hr, hge⟩
  · rw [hinf]; exact h
  · rw [hr]
    show (2 ^ 53 : Int) ≤ ⌊r⌋
    rw [Int.le_floor]
    rw [← hgrid] at hge
    have h53' : pow2 53 ≤ r := le_trans (pow2_le_pow2 hE) hge
    rw [show (53 : Int) = ((53 : Nat) : Int) by norm_num, pow2_natCast] at h53'
    exact_mod_cast h53'

theorem lt_of_jsSucc_lt (n : Int) (h : jsSucc n < 2 ^ 53) : n < 2 ^ 53 := by
  by_contra hn
  have := le_jsSucc n (not_lt.mp hn)
  omega

theorem jsSucc_of_lt (n : Int) (h0 : 0 ≤ n) (h : jsSucc n < 2 ^ 53) : jsSucc n = n + 1 :=
  jsSucc_eq n h0 (lt_of_jsSucc_lt n h)

/-- Numeric text is rounded to a double before it is compared: marks typed
as 90.99999999999999999999 read as 91 and are graded A+. -/
theorem marksToGrade_rounded_text :
    stringToNumber "90.99999999999999999999" = JSNum.fin 91 ∧
    marksToGrade (JSValue.str "90.99999999999999999999") = some "A+" := by
  decide!

/-! ### Aggregation -/

theorem effectiveGrade_eq_doc (s : Subject) : effectiveGrade s = effectiveGradeDoc s := by
  unfold effectiveGrade effectiveGradeDoc
  cases hg : s.grade with
  | none => simp [gradeTruthy]
  | some g =>
    by_cases he : g = ""
    · simp [gradeTruthy, he]
    · simp [gradeTruthy, he]

theorem accumulate_eq (acc : JSNum × JSNum) (s : Subject) :
    accumulate acc s =
      if isCounted s then
        (acc.1 + creditsOf s, acc.2 + creditsOf s * gpToNumber (pointOf s).gp)
      else acc := by
  unfold accumulate isCounted pointOf creditsOf
  simp only [effectiveGrade_eq_doc]
  cases (gradeToGP (effectiveGradeDoc s) s.isFR).excluded <;>
    cases (gradeToGP (effectiveGradeDoc s) s.isFR).gp <;>
    cases (toNumber s.credits).gt 0 <;> simp

/-- The loop over the subjects is the two left-to-right sums over the counted
subjects, started from the accumulators. -/
theorem foldl_accumulate (l : List Subject) (acc : JSNum × JSNum) :
    l.foldl accumulate acc =
      (((l.filter isCounted).map creditsOf).foldl (· + ·) acc.1,
       ((l.filter isCounted).map fun s => creditsOf s * gpToNumber (pointOf s).gp).foldl
         (· + ·) acc.2) := by
  induction l generalizing acc with
  | nil => rfl
  | cons s l ih =>
    rw [List.foldl_cons, ih, accumulate_eq]
    by_cases h : isCounted s = true
    · simp [h, List.filter_cons]
    · simp [h, List.filter_cons]

theorem foldl_accumulate_zero (l : List Subject) :
    l.foldl accumulate (0, 0) = (sumCredits l, sumCreditPoints l) := by
  rw [foldl_accumulate]
  rfl

/-! ### The shape of the credit total -/

theorem nonNegative_zero : NonNegative 0 :=
  Or.inl ⟨0, JSNum.zero_eq_fin, le_refl _⟩

theorem nonNegative_add {c x : JSNum} (hc : NonNegative c) (hx : x.gt 0 = true) :
    NonNegative (c + x) := by
  rw [JSNum.zero_eq_fin] at hx
  cases x with
  | nan => simp at hx
  | fin b =>
    have hb : 0 < b := by simpa using hx
    rcases hc with ⟨a, rfl, ha⟩ | rfl
    · rw [JSNum.fin_add_fin]
      exact roundQ_nonNegative _ (by linarith)
    · right; rfl
  | inf s =>
    have hs : s = false := by simpa using hx
    subst hs
    rcases hc with ⟨a, rfl, ha⟩ | rfl
    · right; rfl
    · right; rfl

theorem nonNegative_foldl (l : List JSNum) (hl : ∀ x ∈ l, x.gt 0 = true) (c : JSNum)
    (hc : NonNegative c) : NonNegative (l.foldl (· + ·) c) := by
  induction l generalizing c with
  | nil => exact hc
  | cons x l ih =>
    rw [List.foldl_cons]
    exact ih (fun y hy => hl y (List.mem_cons_of_mem _ hy)) _
      (nonNegative_add hc (hl x (List.mem_cons_self _ _)))

theorem counted_gt (s : Subject) (h : isCounted s = true) : (creditsOf s).gt 0 = true := by
  unfold isCounted at h
  simp only [Bool.and_eq_true] at h
  exact h.2

theorem sumCredits_nonNegative (l : List Subject) : NonNegative (sumCredits l) := by
  unfold sumCredits jsSum
  refine nonNegative_foldl _ ?_ 0 nonNegative_zero
  intro x hx
  obtain ⟨s, hs, rfl⟩ := List.mem_map.mp hx
  exact counted_gt s (List.mem_filter.mp hs).2

theorem truthy_eq_gt_zero {c : JSNum} (h : NonNegative c) : c.truthy = c.gt 0 := by
  rw [JSNum.zero_eq_fin]
  rcases h with ⟨a, rfl, ha⟩ | rfl
  · by_cases h0 : a = 0
    · simp [h0]
    · have : 0 < a := lt_of_le_of_ne ha (Ne.symm h0)
      simp [h0, this]
  · simp

theorem getSemStats_eq_doc (sem : Semester) : getSemStats sem = semStatsDoc sem := by
  unfold getSemStats semStatsDoc
  simp only [foldl_accumulate_zero]
  rw [truthy_eq_gt_zero (sumCredits_nonNegative sem.subjects)]

theorem not_counted_of (s : Subject)
    (h : s.isFR = true ∨ s.grade = some "FR" ∨ (pointOf s).gp = none ∨
      ∃ q : ℚ, q ≤ 0 ∧ creditsOf s = JSNum.fin q) : isCounted s = false := by
  unfold isCounted
  rcases h with h | h | h | ⟨q, hq, hc⟩
  · have : (pointOf s).excluded = true := by
      unfold pointOf gradeToGP; simp [h]
    simp [this]
  · have : (pointOf s).excluded = true := by
      unfold pointOf effectiveGradeDoc gradeToGP; simp [h]
    simp [this]
  · simp [h]
  · have : (creditsOf s).gt 0 = false := by
      rw [hc, JSNum.zero_eq_fin]; simpa using hq
    simp [this]

theorem getSemStats_drop (i : Int) (pre post : List Subject) (s : Subject)
    (h : isCounted s = false) :
    getSemStats ⟨i, pre ++ s :: post⟩ = getSemStats ⟨i, pre ++ post⟩ := by
  rw [getSemStats_eq_doc, getSemStats_eq_doc]
  unfold semStatsDoc sumCredits sumCreditPoints
  simp [List.filter_append, List.filter_cons, h]

/-- C1: `getSemStats` equals the reference aggregation.  For every semester
the credits are the sum of `Number(credits)` and the points the sum of
`Number(credits) * gp` over exactly the counted subjects (effective grade
with a non-null, non-excluded grade point, credits `> 0`), added in order
in the code's own arithmetic; the gpa is points / credits when credits `> 0`
and 0 otherwise, and hasData is credits `> 0`.  A subject that is FR,
ungraded or has credits `<= 0` is not counted, and dropping a subject that
is not counted changes no result.  On (4, A) (3, B) (2, FR): credits 7,
points 57, gpa the double nearest to 57/7. -/
theorem getSemStats_reference :
    (∀ sem : Semester, getSemStats sem = semStatsDoc sem) ∧
    (∀ s : Subject,
      (s.isFR = true ∨ s.grade = some "FR" ∨ (pointOf s).gp = none ∨
        ∃ q : ℚ, q ≤ 0 ∧ creditsOf s = JSNum.fin q) → isCounted s = false) ∧
    (∀ (i : Int) (pre post : List Subject) (s : Subject), isCounted s = false →
      getSemStats ⟨i, pre ++ s :: post⟩ = getSemStats ⟨i, pre ++ post⟩) ∧
    (sumCredits exampleSemester.subjects = JSNum.fin 7 ∧
      sumCreditPoints exampleSemester.subjects = JSNum.fin 57 ∧
      getSemStats exampleSemester = ⟨roundQ (57 / 7), JSNum.fin 7, true⟩ ∧
      roundQ (57 / 7) = JSNum.fin (2292010524643913 / 281474976710656)) :=
  ⟨getSemStats_eq_doc, not_counted_of, getSemStats_drop, by decide!, by decide!, by decide!,
    by decide!⟩

/-- C1 on the documented example: the FR row of (4, A) (3, B) (2, FR) is not
counted, and without it the semester has the same statistics. -/
theorem getSemStats_reference_witness :
    isCounted (gradedSubject 3 2 "FR") = false ∧
    getSemStats exampleSemester =
      getSemStats ⟨1, [gradedSubject 1 4 "A", gradedSubject 2 3 "B"]⟩ :=
  ⟨getSemStats_reference.2.1 _ (Or.inr (Or.inl rfl)),
   getSemStats_reference.2.2.1 1 [gradedSubject 1 4 "A", gradedSubject 2 3 "B"] []
     (gradedSubject 3 2 "FR") (getSemStats_reference.2.1 _ (Or.inr (Or.inl rfl)))⟩

/-! ### Overall statistics -/

theorem foldl_semesters (sems : List Semester) (acc : JSNum × JSNum) :
    sems.foldl (fun acc sem => sem.subjects.foldl accumulate acc) acc =
      (sems.flatMap fun sem => sem.subjects).foldl accumulate acc := by
  induction sems generalizing acc with
  | nil => rfl
  | cons sem sems ih => simp [List.flatMap_cons, List.foldl_append, ih]

theorem overall_accumulators (st : State) :
    st.sems.foldl (fun acc sem => sem.subjects.foldl accumulate acc) (0, 0) =
      (sumCredits (st.sems.flatMap fun sem => sem.subjects),
       sumCreditPoints (st.sems.flatMap fun sem => sem.subjects)) := by
  rw [foldl_semesters, foldl_accumulate_zero]

theorem getOverallStats_flat (st : State) :
    getOverallStats st =
      let c := sumCredits (st.sems.flatMap fun sem => sem.subjects)
      let p := sumCreditPoints (st.sems.flatMap fun sem => sem.subjects)
      { cgpa := if c.gt 0 then p / c else 0
        percent := if c.gt 0 then ((if c.gt 0 then p / c else 0) - JSNum.fin (1 / 2)) * 10 else 0
        totalCredits := c } := by
  unfold getOverallStats
  simp only [overall_accumulators]
  rw [truthy_eq_gt_zero (sumCredits_nonNegative _)]

/-- C5: for every session, percent is (cgpa - 0.5) * 10 when the counted
credits are `> 0`; when no credits are counted, cgpa and percent are both 0.
On the documented session the cgpa is the double 7.8 and the percent 73. -/
theorem percent_formula :
    (∀ st : State, (getOverallStats st).percent =
      if (getOverallStats st).totalCredits.gt 0 then
        ((getOverallStats st).cgpa - JSNum.fin (1 / 2)) * 10
      else 0) ∧
    (∀ st : State, (getOverallStats st).totalCredits.gt 0 = false →
      (getOverallStats st).cgpa = 0 ∧ (getOverallStats st).percent = 0) ∧
    ((getOverallStats exampleSession).cgpa = roundQ (39 / 5) ∧
      roundQ (39 / 5) = JSNum.fin (8782019273372467 / 1125899906842624) ∧
      (getOverallStats exampleSession).percent = JSNum.fin 73) := by
  refine ⟨?_, ?_, by decide!, by decide!, by decide!⟩
  · intro st
    rw [getOverallStats_flat]
  · intro st h
    rw [getOverallStats_flat] at h ⊢
    simp only at h ⊢
    simp [h]

/-- C5 on the empty session: no credits are counted, so cgpa and percent
are 0. -/
theorem percent_formula_witness :
    (getOverallStats ⟨[], 1, 1⟩).cgpa = 0 ∧ (getOverallStats ⟨[], 1, 1⟩).percent = 0 :=
  percent_formula.2.1 ⟨[], 1, 1⟩ (by decide!)

/-- C2 (amended): `getOverallStats` is one flattened pass.  For every session
its cgpa and total credits are those of `getSemStats` on a single semester
holding all subjects of all semesters in order.  On the documented session
(7 credits / 57 points and 3 credits / 21 points) the cgpa is the double
nearest to 78/10, not the mean of the two semester GPAs. -/
theorem getOverallStats_flattened :
    (∀ (st : State) (i : Int),
      (getOverallStats st).cgpa =
          (getSemStats ⟨i, st.sems.flatMap fun sem => sem.subjects⟩).gpa ∧
        (getOverallStats st).totalCredits =
          (getSemStats ⟨i, st.sems.flatMap fun sem => sem.subjects⟩).credits) ∧
    ((getSemStats exampleSemester).credits = JSNum.fin 7 ∧
      sumCreditPoints exampleSemester.subjects = JSNum.fin 57 ∧
      (getSemStats exampleSemester2).credits = JSNum.fin 3 ∧
      sumCreditPoints exampleSemester2.subjects = JSNum.fin 21 ∧
      (getOverallStats exampleSession).totalCredits = JSNum.fin 10 ∧
      (getOverallStats exampleSession).cgpa = roundQ (78 / 10) ∧
      roundQ (78 / 10) = JSNum.fin (8782019273372467 / 1125899906842624) ∧
      jsSum (exampleSession.sems.map fun sem => (getSemStats sem).gpa) / 2 =
        JSNum.fin (4262335361618505 / 562949953421312) ∧
      (getOverallStats exampleSession).cgpa ≠
        jsSum (exampleSession.sems.map fun sem => (getSemStats sem).gpa) / 2) := by
  refine ⟨?_, by decide!, by decide!, by decide!, by decide!, by decide!, by decide!, by decide!,
    by decide!, by decide!⟩
  intro st i
  rw [getOverallStats_flat, getSemStats_eq_doc]
  simp only [semStatsDoc, and_self]

/-- C2 as stated fails in the code's arithmetic.  With semesters (3, A+)
(4, B) and (1, C) the cgpa is 7.875 while the sum of gpa * credits over the
total credits is 7.875000000000001; with credits 0.1, 0.1 and 0.1, 0.4 the
total credits are 0.7000000000000001 while the semester credits add up to
0.7. -/
theorem overall_differs_from_semester_sums :
    ((getOverallStats roundingSession).totalCredits.gt 0 = true ∧
      (getOverallStats roundingSession).cgpa = JSNum.fin (63 / 8) ∧
      jsSum (roundingSession.sems.map fun sem =>
          (getSemStats sem).gpa * (getSemStats sem).credits) /
          (getOverallStats roundingSession).totalCredits =
        JSNum.fin (8866461766385665 / 1125899906842624) ∧
      (getOverallStats roundingSession).cgpa ≠
        jsSum (roundingSession.sems.map fun sem =>
          (getSemStats sem).gpa * (getSemStats sem).credits) /
          (getOverallStats roundingSession).totalCredits) ∧
    ((getOverallStats tenthsSession).totalCredits =
        JSNum.fin (6305039478318695 / 9007199254740992) ∧
      jsSum (tenthsSession.sems.map fun sem => (getSemStats sem).credits) =
        JSNum.fin (3152519739159347 / 4503599627370496) ∧
      (getOverallStats tenthsSession).totalCredits ≠
        jsSum (tenthsSession.sems.map fun sem => (getSemStats sem).credits)) := by
  refine ⟨⟨by decide!, by decide!, by decide!, by decide!⟩, by decide!, by decide!, by decide!⟩

/-! ### Bounds -/

theorem pow2_neg_one : pow2 (-1) = 1 / 2 := by
  simp [pow2]

/-- A whole or half number below `2 ^ 52` is a double. -/
theorem roundQ_half (k : Nat) (hk : k < 2 ^ 53) : roundQ ((k : ℚ) / 2) = JSNum.fin ((k : ℚ) / 2) := by
  have h := roundQ_exact k (-1) (by norm_num) hk (by
    rw [pow2_neg_one]
    have h1 : (k : ℚ) < 2 ^ 53 := by exact_mod_cast hk
    have h2 := two_pow_53_lt
    linarith)
  rw [pow2_neg_one] at h
  have e : (k : ℚ) * (1 / 2) = (k : ℚ) / 2 := by ring
  rw [e] at h
  exact h

/-- Rounding keeps a value between two doubles `-(a * 2 ^ v)` and
`b * 2 ^ w` that enclose it. -/
theorem roundQ_between (q : ℚ) (a b : Nat) (v w : Int) (hv : -1074 ≤ v) (hw : -1074 ≤ w)
    (ha : a < 2 ^ 53) (hb : b < 2 ^ 53) (hafin : (a : ℚ) * pow2 v < pow2 1024)
    (hbfin : (b : ℚ) * pow2 w < pow2 1024)
    (hlo : -((a : ℚ) * pow2 v) ≤ q) (hhi : q ≤ b * pow2 w) :
    ∃ r : ℚ, roundQ q = JSNum.fin r ∧ -((a : ℚ) * pow2 v) ≤ r ∧ r ≤ b * pow2 w := by
  have hA : (0 : ℚ) ≤ a * pow2 v := mul_nonneg (Nat.cast_nonneg _) (le_of_lt (pow2_pos v))
  have hB : (0 : ℚ) ≤ b * pow2 w := mul_nonneg (Nat.cast_nonneg _) (le_of_lt (pow2_pos w))
  rcases lt_trichotomy q 0 with hneg | hzero | hpos
  · obtain ⟨r, hr, hr0, hrle⟩ := roundQ_le (-q) (by linarith) a v hv ha hafin (by linarith)
    have hq : roundQ q = negNum (roundQ (-q)) := by
      rw [← roundQ_neg, neg_neg]
    rw [hr] at hq
    exact ⟨-r, hq, by linarith, by linarith⟩
  · subst hzero
    exact ⟨0, roundQ_zero, by linarith, hB⟩
  · obtain ⟨r, hr, hr0, hrle⟩ := roundQ_le q hpos b w hw hb hbfin hhi
    exact ⟨r, hr, by linarith, hrle⟩

theorem nat_lt_pow2_1024 (k : Nat) (hk : k < 2 ^ 53) : (k : ℚ) * pow2 0 < pow2 1024 := by
  rw [pow2_zero, mul_one]
  have : (k : ℚ) < 2 ^ 53 := by exact_mod_cast hk
  exact lt_trans this two_pow_53_lt

theorem half_lt_pow2_1024 (k : Nat) (hk : k < 2 ^ 53) : (k : ℚ) * pow2 (-1) < pow2 1024 := by
  rw [pow2_neg_one]
  have h1 : (k : ℚ) < 2 ^ 53 := by exact_mod_cast hk
  have h2 := two_pow_53_lt
  have h3 : (0 : ℚ) ≤ k := Nat.cast_nonneg _
  linarith

/-- The percent computed from an average in `[0, 10]` lies in `[-5, 95]`. -/
theorem percent_bounds (g : ℚ) (h0 : 0 ≤ g) (h10 : g ≤ 10) :
    ∃ p : ℚ, (JSNum.fin g - JSNum.fin (1 / 2)) * 10 = JSNum.fin p ∧ -5 ≤ p ∧ p ≤ 95 := by
  obtain ⟨y, hy, hylo, hyhi⟩ := roundQ_between (g - 1 / 2) 1 19 (-1) (-1) (by norm_num)
    (by norm_num) (by norm_num) (by norm_num) (half_lt_pow2_1024 1 (by norm_num))
    (half_lt_pow2_1024 19 (by norm_num))
    (by rw [pow2_neg_one]; norm_num; linarith) (by rw [pow2_neg_one]; norm_num; linarith)
  rw [pow2_neg_one] at hylo hyhi
  obtain ⟨p, hp, hplo, hphi⟩ := roundQ_between (y * 10) 5 95 0 0 (by norm_num)
    (by norm_num) (by norm_num) (by norm_num) (nat_lt_pow2_1024 5 (by norm_num))
    (nat_lt_pow2_1024 95 (by norm_num))
    (by rw [pow2_zero]; norm_num at hylo ⊢; linarith)
    (by rw [pow2_zero]; norm_num at hyhi ⊢; linarith)
  rw [pow2_zero] at hplo hphi
  refine ⟨p, ?_, by norm_num at hplo; linarith, by norm_num at hphi; linarith⟩
  rw [JSNum.fin_sub_fin, hy, JSNum.ofNat_eq_fin, JSNum.fin_mul_fin]
  simpa using hp

/-- The average of exact accumulators `a / 2` credits and `b / 2` points with
`b ≤ 10 * a` lies in `[0, 10]`. -/
theorem average_bounds (a b : Nat) (hab : b ≤ 10 * a) :
    ∃ g : ℚ, (if (JSNum.fin ((a : ℚ) / 2)).gt 0 then
        JSNum.fin ((b : ℚ) / 2) / JSNum.fin ((a : ℚ) / 2) else 0) = JSNum.fin g ∧
      0 ≤ g ∧ g ≤ 10 := by
  rw [JSNum.zero_eq_fin]
  by_cases ha : a = 0
  · subst ha
    exact ⟨0, by simp, le_refl _, by norm_num⟩
  · have hapos : (0 : ℚ) < a := by exact_mod_cast Nat.pos_of_ne_zero ha
    have hgt : (JSNum.fin ((a : ℚ) / 2)).gt (JSNum.fin 0) = true := by
      rw [JSNum.gt_fin, decide_eq_true_eq]
      positivity
    have hne : (a : ℚ) / 2 ≠ 0 := by positivity
    have hq : (b : ℚ) / 2 / ((a : ℚ) / 2) = (b : ℚ) / a := by field_simp
    have hle : (b : ℚ) / a ≤ 10 := by
      rw [div_le_iff₀ hapos]
      exact_mod_cast hab
    have hge : (0 : ℚ) ≤ (b : ℚ) / a := by positivity
    obtain ⟨g, hg, hglo, hghi⟩ := roundQ_between ((b : ℚ) / a) 0 10 0 0 (by norm_num)
      (by norm_num) (by norm_num) (by norm_num) (nat_lt_pow2_1024 0 (by norm_num))
      (nat_lt_pow2_1024 10 (by norm_num)) (by simpa using hge)
      (by rw [pow2_zero]; simpa using hle)
    rw [pow2_zero] at hglo hghi
    refine ⟨g, ?_, by simpa using hglo, by simpa using hghi⟩
    rw [hgt, if_pos rfl, JSNum.fin_div_fin, if_neg hne, hq, hg]

theorem counted_gp (s : Subject) (h : isCounted s = true) :
    ∃ g : Nat, (pointOf s).gp = some g ∧ g ≤ 10 := by
  unfold isCounted at h
  simp only [Bool.and_eq_true] at h
  cases hg : (pointOf s).gp with
  | none => rw [hg] at h; simp at h
  | some g => exact ⟨g, rfl, gp_le_ten _ _ g hg⟩

/-- With exact credits the loop keeps both accumulators exact: the credits
are `a / 2` and the points `b / 2` for naturals `b ≤ 10 * a`. -/
theorem foldl_accumulate_exact (l : List Subject) (a b : Nat) (hab : b ≤ 10 * a)
    (hhalf : ∀ s ∈ l, isCounted s = true → creditsOf s = JSNum.fin ((halfCredits s : ℚ) / 2))
    (hsum : 10 * (a + ((l.filter isCounted).map halfCredits).sum) < 2 ^ 53) :
    ∃ a' b' : Nat, l.foldl accumulate (JSNum.fin ((a : ℚ) / 2), JSNum.fin ((b : ℚ) / 2)) =
        (JSNum.fin ((a' : ℚ) / 2), JSNum.fin ((b' : ℚ) / 2)) ∧ b' ≤ 10 * a' := by
  induction l generalizing a b with
  | nil => exact ⟨a, b, rfl, hab⟩
  | cons s l ih =>
    rw [List.foldl_cons, accumulate_eq]
    by_cases hc : isCounted s = true
    · obtain ⟨g, hg, hg10⟩ := counted_gp s hc
      have hcred := hhalf s (List.mem_cons_self _ _) hc
      simp only [List.filter_cons, hc, if_true, List.map_cons, List.sum_cons] at hsum
      have hmul : halfCredits s * g ≤ 10 * halfCredits s := by
        rw [Nat.mul_comm]; exact Nat.mul_le_mul_right _ hg10
      have hsmall : halfCredits s * g < 2 ^ 53 := by
        generalize halfCredits s * g = t at hmul
        omega
      have hsmall2 : b + halfCredits s * g < 2 ^ 53 := by
        generalize halfCredits s * g = t at hmul
        omega
      have hab2 : b + halfCredits s * g ≤ 10 * (a + halfCredits s) := by
        generalize halfCredits s * g = t at hmul
        omega
      have e1 : JSNum.fin ((a : ℚ) / 2) + creditsOf s =
          JSNum.fin (((a + halfCredits s : Nat) : ℚ) / 2) := by
        rw [hcred, JSNum.fin_add_fin, ← roundQ_half _ (by omega)]
        congr 1
        push_cast
        ring
      have e2 : creditsOf s * gpToNumber (pointOf s).gp =
          JSNum.fin (((halfCredits s * g : Nat) : ℚ) / 2) := by
        rw [hcred, hg]
        simp only [gpToNumber]
        rw [JSNum.fin_mul_fin, ← roundQ_half _ hsmall]
        congr 1
        push_cast
        ring
      have e3 : JSNum.fin ((b : ℚ) / 2) + JSNum.fin (((halfCredits s * g : Nat) : ℚ) / 2) =
          JSNum.fin (((b + halfCredits s * g : Nat) : ℚ) / 2) := by
        rw [JSNum.fin_add_fin, ← roundQ_half _ hsmall2]
        congr 1
        push_cast
        ring
      simp only [hc, if_true, e2, e1, e3]
      exact ih (a + halfCredits s) (b + halfCredits s * g) hab2
        (fun x hx => hhalf x (List.mem_cons_of_mem _ hx)) (by omega)
    · simp only [List.filter_cons, hc] at hsum
      simp only [hc]
      exact ih a b hab (fun x hx => hhalf x (List.mem_cons_of_mem _ hx)) (by simpa using hsum)

theorem sums_exact (l : List Subject) (h : ExactCredits l) :
    ∃ a b : Nat, sumCredits l = JSNum.fin ((a : ℚ) / 2) ∧
      sumCreditPoints l = JSNum.fin ((b : ℚ) / 2) ∧ b ≤ 10 * a := by
  obtain ⟨a, b, hfold, hab⟩ := foldl_accumulate_exact l 0 0 (le_refl _) h.1
    (by simpa using h.2)
  have hz : (JSNum.fin (((0 : Nat) : ℚ) / 2), JSNum.fin (((0 : Nat) : ℚ) / 2)) =
      ((0 : JSNum), (0 : JSNum)) := by
    simp [JSNum.zero_eq_fin]
  rw [hz, foldl_accumulate_zero] at hfold
  exact ⟨a, b, congrArg Prod.fst hfold, congrArg Prod.snd hfold, hab⟩

/-! ### All counted grades F -/

theorem foldl_zero (l : List JSNum) (hl : ∀ x ∈ l, x = JSNum.fin 0) :
    l.foldl (· + ·) (JSNum.fin 0) = JSNum.fin 0 := by
  induction l with
  | nil => rfl
  | cons x l ih =>
    rw [List.foldl_cons, hl x (List.mem_cons_self _ _), JSNum.fin_add_fin]
    simp only [add_zero, roundQ_zero]
    exact ih (fun y hy => hl y (List.mem_cons_of_mem _ hy))

theorem points_zero (l : List Subject)
    (hfin : ∀ s ∈ l, ∀ b : Bool, toNumber s.credits ≠ JSNum.inf b)
    (hF : ∀ s ∈ l, isCounted s = true → (pointOf s).gp = some 0) :
    sumCreditPoints l = JSNum.fin 0 := by
  unfold sumCreditPoints jsSum
  rw [JSNum.zero_eq_fin]
  apply foldl_zero
  intro x hx
  obtain ⟨s, hs, rfl⟩ := List.mem_map.mp hx
  obtain ⟨hmem, hc⟩ := List.mem_filter.mp hs
  rw [hF s hmem hc]
  have hgt := counted_gt s hc
  rw [JSNum.zero_eq_fin] at hgt
  cases hcred : creditsOf s with
  | nan => rw [hcred] at hgt; simp at hgt
  | fin a => simp [gpToNumber, roundQ_zero]
  | inf b => exact absurd hcred (hfin s hmem b)

theorem percent_all_failed : (JSNum.fin 0 - JSNum.fin (1 / 2)) * 10 = JSNum.fin (-5) := by
  decide!

theorem percent_of_failed (l : List Subject)
    (hfin : ∀ s ∈ l, ∀ b : Bool, toNumber s.credits ≠ JSNum.inf b)
    (hF : ∀ s ∈ l, isCounted s = true → (pointOf s).gp = some 0)
    (hgt : (sumCredits l).gt 0 = true) :
    ((if (sumCredits l).gt 0 then sumCreditPoints l / sumCredits l else 0) - JSNum.fin (1 / 2)) *
      10 = JSNum.fin (-5) := by
  rw [hgt, if_pos rfl, points_zero l hfin hF]
  have hc : JSNum.fin 0 / sumCredits l = JSNum.fin 0 := by
    rw [JSNum.zero_eq_fin] at hgt
    rcases sumCredits_nonNegative l with ⟨a, ha, -⟩ | hinf
    · rw [ha] at hgt ⊢
      have hne : a ≠ 0 := by
        intro h0; rw [h0] at hgt; simp at hgt
      rw [JSNum.fin_div_fin, if_neg hne]
      simp [roundQ_zero]
    · rw [hinf]; rfl
  rw [hc]
  exact percent_all_failed

/-- C10 (amended): when the counted credits are whole or half numbers and
ten times their total is below `2 ^ 53` half-units, every sum is exact and
the averages stay on the scale: the gpa of a semester is in [0, 10], and the
cgpa of a session is in [0, 10] with its percent in [-5, 95].  And for any
session with finite credit values, when credits are counted and every
counted grade point is 0 (grade F), the percent is exactly -5. -/
theorem averages_on_scale :
    (∀ sem : Semester, ExactCredits sem.subjects →
      ∃ g : ℚ, (getSemStats sem).gpa = JSNum.fin g ∧ 0 ≤ g ∧ g ≤ 10) ∧
    (∀ st : State, ExactCredits (st.sems.flatMap fun sem => sem.subjects) →
      ∃ c p : ℚ, (getOverallStats st).cgpa = JSNum.fin c ∧
        (getOverallStats st).percent = JSNum.fin p ∧ 0 ≤ c ∧ c ≤ 10 ∧ -5 ≤ p ∧ p ≤ 95) ∧
    (∀ st : State,
      (∀ sem ∈ st.sems, ∀ s ∈ sem.subjects, ∀ b : Bool, toNumber s.credits ≠ JSNum.inf b) →
      (getOverallStats st).totalCredits.gt 0 = true →
      (∀ sem ∈ st.sems, ∀ s ∈ sem.subjects, isCounted s = true → (pointOf s).gp = some 0) →
      (getOverallStats st).percent = JSNum.fin (-5)) := by
  refine ⟨?_, ?_, ?_⟩
  · intro sem h
    obtain ⟨a, b, hc, hp, hab⟩ := sums_exact sem.subjects h
    rw [getSemStats_eq_doc]
    simp only [semStatsDoc, hc, hp]
    exact average_bounds a b hab
  · intro st h
    obtain ⟨a, b, hc, hp, hab⟩ := sums_exact _ h
    rw [getOverallStats_flat]
    simp only [hc, hp]
    obtain ⟨g, hg, hg0, hg10⟩ := average_bounds a b hab
    by_cases hgt : (JSNum.fin ((a : ℚ) / 2)).gt 0 = true
    · obtain ⟨p, hpp, hplo, hphi⟩ := percent_bounds g hg0 hg10
      refine ⟨g, p, hg, ?_, hg0, hg10, hplo, hphi⟩
      rw [hg, hgt, if_pos rfl]
      exact hpp
    · refine ⟨g, 0, hg, ?_, hg0, hg10, by norm_num, by norm_num⟩
      simp only [hgt]
      simp [JSNum.zero_eq_fin]
  · intro st hfin hgt hF
    have hflat : ∀ s ∈ st.sems.flatMap (fun sem => sem.subjects), ∀ b : Bool,
        toNumber s.credits ≠ JSNum.inf b := by
      intro s hs
      obtain ⟨sem, hsem, hmem⟩ := List.mem_flatMap.mp hs
      exact hfin sem hsem s hmem
    have hFflat : ∀ s ∈ st.sems.flatMap (fun sem => sem.subjects), isCounted s = true →
        (pointOf s).gp = some 0 := by
      intro s hs
      obtain ⟨sem, hsem, hmem⟩ := List.mem_flatMap.mp hs
      exact hF sem hsem s hmem
    rw [getOverallStats_flat] at hgt ⊢
    simp only at hgt ⊢
    rw [if_pos hgt]
    exact percent_of_failed _ hflat hFflat hgt

/-- C10 (amended) on the documented semester (4, A) (3, B) (2, FR), whose
credits are whole numbers, and on a session whose only counted grade is F. -/
theorem averages_on_scale_witness :
    ExactCredits exampleSemester.subjects ∧
    (∃ g : ℚ, (getSemStats exampleSemester).gpa = JSNum.fin g ∧ 0 ≤ g ∧ g ≤ 10) ∧
    (getOverallStats failedSession).percent = JSNum.fin (-5) :=
  ⟨by unfold ExactCredits; decide!,
   averages_on_scale.1 exampleSemester (by unfold ExactCredits; decide!),
   averages_on_scale.2.2 failedSession (by decide) (by decide!) (by decide!)⟩

/-- C10 as stated fails in the code's arithmetic.  Credits 0.1 and 4.1, both
graded A+, give a gpa and cgpa of 10.000000000000002 and a percent of
95.00000000000001; a single subject of credits 1e308 graded A+ gives the gpa
Infinity.  All these credit values are finite. -/
theorem averages_exceed_scale :
    ((∀ sem ∈ topSession.sems, ∀ s ∈ sem.subjects, ∀ b : Bool,
        toNumber s.credits ≠ JSNum.inf b) ∧
      (∀ sem ∈ topSession.sems,
        (getSemStats sem).gpa = JSNum.fin (5629499534213121 / 562949953421312)) ∧
      (getOverallStats topSession).cgpa = JSNum.fin (5629499534213121 / 562949953421312) ∧
      (10 : ℚ) < 5629499534213121 / 562949953421312 ∧
      (getOverallStats topSession).percent = JSNum.fin (6685030696878081 / 70368744177664) ∧
      (95 : ℚ) < 6685030696878081 / 70368744177664) ∧
    ((∀ s ∈ hugeSemester.subjects, ∀ b : Bool, toNumber s.credits ≠ JSNum.inf b) ∧
      (getSemStats hugeSemester).gpa = JSNum.inf false) := by
  refine ⟨⟨by decide!, by decide!, by decide!, by norm_num, by decide!, by norm_num⟩,
    by decide!, by decide!⟩

/-! ### Session store: `find` and in-place mutation -/

theorem find?_first {α : Type} (p : α → Bool) (pre post : List α) (x : α)
    (hpre : ∀ y ∈ pre, p y = false) (hx : p x = true) :
    (pre ++ x :: post).find? p = some x := by
  induction pre with
  | nil => simp [hx]
  | cons y pre ih =>
    have hy : p y = false := hpre y (List.mem_cons_self _ _)
    have := ih (fun z hz => hpre z (List.mem_cons_of_mem _ hz))
    simpa [List.find?_cons, hy] using this

theorem modifyFirst_first {α : Type} (p : α → Bool) (f : α → α) (pre post : List α) (x : α)
    (hpre : ∀ y ∈ pre, p y = false) (hx : p x = true) :
    modifyFirst p f (pre ++ x :: post) = pre ++ f x :: post := by
  induction pre with
  | nil => simp [modifyFirst, hx]
  | cons y pre ih =>
    have hy : p y = false := hpre y (List.mem_cons_self _ _)
    have := ih (fun z hz => hpre z (List.mem_cons_of_mem _ hz))
    simp [modifyFirst, hy, this]

theorem modifyFirst_forall {α : Type} (p : α → Bool) (f : α → α) (P : α → Prop) (l : List α)
    (hl : ∀ x ∈ l, P x) (hf : ∀ x ∈ l, P (f x)) : ∀ y ∈ modifyFirst p f l, P y := by
  induction l with
  | nil => intro y hy; simp [modifyFirst] at hy
  | cons a l ih =>
    intro y hy
    unfold modifyFirst at hy
    split_ifs at hy
    · rcases List.mem_cons.mp hy with rfl | hmem
      · exact hf a (List.mem_cons_self _ _)
      · exact hl y (List.mem_cons_of_mem _ hmem)
    · rcases List.mem_cons.mp hy with rfl | hmem
      · exact hl y (List.mem_cons_self _ _)
      · exact ih (fun x hx => hl x (List.mem_cons_of_mem _ hx))
          (fun x hx => hf x (List.mem_cons_of_mem _ hx)) y hmem

theorem split_of_find? {α : Type} (p : α → Bool) (l : List α) (x : α)
    (h : l.find? p = some x) :
    p x = true ∧ ∃ pre post, l = pre ++ x :: post ∧ ∀ y ∈ pre, p y = false := by
  obtain ⟨hx, pre, post, hl, hpre⟩ := List.find?_eq_some.mp h
  exact ⟨hx, pre, post, hl, fun y hy => by simpa using hpre y hy⟩

theorem updateSub_at (st : State) (semId subId : Int) (u : FieldUpdate)
    (pre post : List Semester) (sem : Semester) (spre spost : List Subject) (sub : Subject)
    (hsems : st.sems = pre ++ sem :: post) (hpre : ∀ x ∈ pre, x.id ≠ semId)
    (hsem : sem.id = semId)
    (hsubs : sem.subjects = spre ++ sub :: spost) (hspre : ∀ x ∈ spre, x.id ≠ subId)
    (hsub : sub.id = subId) :
    updateSub st semId subId u =
      some { st with sems :=
        pre ++ { sem with subjects := spre ++ updateSubject sub u :: spost } :: post } := by
  have hp : ∀ x ∈ pre, (fun s : Semester => s.id == semId) x = false := by
    intro x hx; simpa using hpre x hx
  have hq : ∀ x ∈ spre, (fun s : Subject => s.id == subId) x = false := by
    intro x hx; simpa using hspre x hx
  have hfind : st.sems.find? (fun s => s.id == semId) = some sem := by
    rw [hsems]; exact find?_first _ pre post sem hp (by simpa using hsem)
  have hfind2 : sem.subjects.find? (fun s => s.id == subId) = some sub := by
    rw [hsubs]; exact find?_first _ spre spost sub hq (by simpa using hsub)
  unfold updateSub
  simp only [hfind, hfind2]
  rw [hsems, modifyFirst_first _ _ pre post sem hp (by simpa using hsem)]
  simp only [hsubs]
  rw [modifyFirst_first _ _ spre spost sub hq (by simpa using hsub)]

/-- C6: the auto-sync rule of `updateSub`.  When the session has a first
semester with id `semId` whose first subject with id `subId` is `sub`, then
both `updateSub(semId, subId, 'grade', 'FR')` and
`updateSub(semId, subId, 'isFR', true)` succeed and leave the session as it
was except that `sub` now has grade FR and isFR true; its id, name, credits
and marks, every other subject and semester, and both counters are unchanged. -/
theorem updateSub_autoFR (st : State) (semId subId : Int)
    (pre post : List Semester) (sem : Semester) (spre spost : List Subject) (sub : Subject)
    (hsems : st.sems = pre ++ sem :: post) (hpre : ∀ x ∈ pre, x.id ≠ semId)
    (hsem : sem.id = semId)
    (hsubs : sem.subjects = spre ++ sub :: spost) (hspre : ∀ x ∈ spre, x.id ≠ subId)
    (hsub : sub.id = subId) :
    updateSub st semId subId (FieldUpdate.grade (some "FR")) =
        some { st with sems := pre ++
          { sem with subjects :=
              spre ++ { sub with grade := some "FR", isFR := true } :: spost } :: post } ∧
      updateSub st semId subId (FieldUpdate.isFR true) =
        some { st with sems := pre ++
          { sem with subjects :=
              spre ++ { sub with grade := some "FR", isFR := true } :: spost } :: post } := by
  constructor
  · rw [updateSub_at st semId subId _ pre post sem spre spost sub hsems hpre hsem hsubs hspre hsub]
    simp [updateSubject, setField, autoFR]
  · rw [updateSub_at st semId subId _ pre post sem spre spost sub hsems hpre hsem hsubs hspre hsub]
    simp [updateSubject, setField, autoFR]

/-- C6 on the default session: marking subject 2 of semester 1 as FR, by the
grade or by the checkbox, changes only the grade and isFR of subject 2. -/
theorem updateSub_autoFR_witness :
    updateSub (load initialState none) 1 2 (FieldUpdate.grade (some "FR")) =
        some { sems := [{ id := 1, subjects :=
                 [{ id := 1, name := "", credits := JSValue.num (JSNum.fin 3), grade := some "",
                    marks := JSValue.str "", isFR := false },
                  { id := 2, name := "", credits := JSValue.num (JSNum.fin 3),
                    grade := some "FR", marks := JSValue.str "", isFR := true },
                  { id := 3, name := "", credits := JSValue.num (JSNum.fin 3), grade := some "",
                    marks := JSValue.str "", isFR := false }] }],
               nextSemId := 2, nextSubId := 4 } ∧
      updateSub (load initialState none) 1 2 (FieldUpdate.isFR true) =
        updateSub (load initialState none) 1 2 (FieldUpdate.grade (some "FR")) := by
  have h := updateSub_autoFR (load initialState none) 1 2 [] []
    { id := 1, subjects :=
        [{ id := 1, name := "", credits := JSValue.num (JSNum.fin 3), grade := some "",
           marks := JSValue.str "", isFR := false },
         { id := 2, name := "", credits := JSValue.num (JSNum.fin 3), grade := some "",
           marks := JSValue.str "", isFR := false },
         { id := 3, name := "", credits := JSValue.num (JSNum.fin 3), grade := some "",
           marks := JSValue.str "", isFR := false }] }
    [{ id := 1, name := "", credits := JSValue.num (JSNum.fin 3), grade := some "",
       marks := JSValue.str "", isFR := false }]
    [{ id := 3, name := "", credits := JSValue.num (JSNum.fin 3), grade := some "",
       marks := JSValue.str "", isFR := false }]
    { id := 2, name := "", credits := JSValue.num (JSNum.fin 3), grade := some "",
      marks := JSValue.str "", isFR := false }
    (by decide!) (by decide) rfl rfl (by decide) rfl
  exact ⟨h.1.trans (by decide!), h.2.trans h.1.symm⟩

/-! ### Session store: grade and isFR -/

theorem syncedSubject_update (sub : Subject) (u : FieldUpdate) (h : SyncedSubject sub) :
    SyncedSubject (updateSubject sub u) ↔ ¬ (sub.isFR = true ∧ ClearsFR u) := by
  unfold SyncedSubject at h ⊢
  unfold ClearsFR
  cases u with
  | name v => simp [updateSubject, setField, autoFR, h]
  | credits v => simp [updateSubject, setField, autoFR, h]
  | marks v => simp [updateSubject, setField, autoFR, h]
  | grade v =>
    by_cases hv : v = some "FR"
    · simp [updateSubject, setField, autoFR, hv]
    · simp [updateSubject, setField, autoFR, hv]
  | isFR b =>
    cases b with
    | true => simp [updateSubject, setField, autoFR]
    | false => simp [updateSubject, setField, autoFR, h]

/-- C7 (amended): in a session where every subject has isFR set exactly when
its grade is FR, an `updateSub` call on an existing subject succeeds, and the
resulting session has the same property in every case but one: the target
subject is marked FR and the call sets its grade to something other than FR
or sets its isFR to false. -/
theorem updateSub_sync (st : State) (semId subId : Int) (u : FieldUpdate)
    (sem : Semester) (sub : Subject) (hs : Synced st)
    (hsem : st.sems.find? (fun s => s.id == semId) = some sem)
    (hsub : sem.subjects.find? (fun s => s.id == subId) = some sub) :
    ∃ st', updateSub st semId subId u = some st' ∧
      (Synced st' ↔ ¬ (sub.isFR = true ∧ ClearsFR u)) := by
  obtain ⟨hx, pre, post, hl, hpre⟩ := split_of_find? _ _ _ hsem
  obtain ⟨hy, spre, spost, hl2, hspre⟩ := split_of_find? _ _ _ hsub
  have hsub_sync : SyncedSubject sub := by
    refine hs sem ?_ sub ?_
    · rw [hl]; simp
    · rw [hl2]; simp
  refine ⟨_, updateSub_at st semId subId u pre post sem spre spost sub hl
    (fun x hx' => by simpa using hpre x hx') (by simpa using hx) hl2
    (fun x hx' => by simpa using hspre x hx') (by simpa using hy), ?_⟩
  rw [← syncedSubject_update sub u hsub_sync]
  constructor
  · intro h
    exact h { sem with subjects := spre ++ updateSubject sub u :: spost } (by simp)
      (updateSubject sub u) (by simp)
  · intro h sem' hsem' s hs'
    simp only [List.mem_append, List.mem_cons] at hsem'
    rcases hsem' with hm | rfl | hm
    · exact hs sem' (by rw [hl]; simp [hm]) s hs'
    · simp only [List.mem_append, List.mem_cons] at hs'
      rcases hs' with hm | rfl | hm
      · exact hs sem (by rw [hl]; simp) s (by rw [hl2]; simp [hm])
      · exact h
      · exact hs sem (by rw [hl]; simp) s (by rw [hl2]; simp [hm])
    · exact hs sem' (by rw [hl]; simp [hm]) s hs'

theorem synced_default : Synced (load initialState none) := by
  intro sem hsem s hs
  simp only [load, newSubject, initialState, List.mem_singleton] at hsem
  subst hsem
  simp only [List.mem_cons, List.mem_singleton, List.not_mem_nil, or_false] at hs
  rcases hs with rfl | rfl | rfl <;> simp [SyncedSubject]

/-- C7 (amended) on the default session: ticking FR on subject 2 of
semester 1 keeps every subject in sync. -/
theorem updateSub_sync_witness :
    Synced (load initialState none) ∧
    ∃ st', updateSub (load initialState none) 1 2 (FieldUpdate.isFR true) = some st' ∧
      Synced st' := by
  refine ⟨synced_default, ?_⟩
  obtain ⟨st', h1, h2⟩ := updateSub_sync (load initialState none) 1 2 (FieldUpdate.isFR true)
    { id := 1, subjects :=
        [{ id := 1, name := "", credits := JSValue.num (JSNum.fin 3), grade := some "",
           marks := JSValue.str "", isFR := false },
         { id := 2, name := "", credits := JSValue.num (JSNum.fin 3), grade := some "",
           marks := JSValue.str "", isFR := false },
         { id := 3, name := "", credits := JSValue.num (JSNum.fin 3), grade := some "",
           marks := JSValue.str "", isFR := false }] }
    { id := 2, name := "", credits := JSValue.num (JSNum.fin 3), grade := some "",
      marks := JSValue.str "", isFR := false }
    synced_default (by decide!) (by decide!)
  refine ⟨st', h1, h2.mpr ?_⟩
  rintro ⟨-, hc⟩
  rcases hc with ⟨v, hv, -⟩ | hc
  · cases hv
  · cases hc

/-- C7 as stated fails: in `frSession` the only subject has grade FR and
isFR true; `updateSub(1, 1, 'grade', 'A')` sets the grade to A and leaves
isFR true. -/
theorem updateSub_breaks_sync :
    Synced frSession ∧
    updateSub frSession 1 1 (FieldUpdate.grade (some "A")) = some desyncedSession ∧
    ¬ Synced desyncedSession := by
  refine ⟨?_, rfl, ?_⟩
  · intro sem hsem s hs
    simp only [frSession, List.mem_singleton] at hsem
    subst hsem
    simp only [List.mem_singleton] at hs
    subst hs
    simp [SyncedSubject, gradedSubject]
  · intro h
    have := h _ (List.mem_singleton.mpr rfl) _ (List.mem_singleton.mpr rfl)
    simp [SyncedSubject, gradedSubject] at this

/-! ### Session store: ids -/

theorem foldl_max_ge {α : Type} (f : α → Int) (l : List α) (m : Int) :
    m ≤ l.foldl (fun m x => max m (f x)) m ∧
      ∀ x ∈ l, f x ≤ l.foldl (fun m x => max m (f x)) m := by
  induction l generalizing m with
  | nil => simp
  | cons a l ih =>
    obtain ⟨h1, h2⟩ := ih (max m (f a))
    refine ⟨le_trans (le_max_left _ _) h1, ?_⟩
    intro x hx
    rcases List.mem_cons.mp hx with rfl | hmem
    · exact le_trans (le_max_right _ _) h1
    · exact h2 x hmem

theorem load_default : load initialState none =
    { sems := [{ id := 1, subjects :=
        [{ id := 1, name := "", credits := JSValue.num (JSNum.fin 3), grade := some "",
           marks := JSValue.str "", isFR := false },
         { id := 2, name := "", credits := JSValue.num (JSNum.fin 3), grade := some "",
           marks := JSValue.str "", isFR := false },
         { id := 3, name := "", credits := JSValue.num (JSNum.fin 3), grade := some "",
           marks := JSValue.str "", isFR := false }] }],
      nextSemId := 2, nextSubId := 4 } := by
  decide!

/-- After `load`, while both counters are below `2 ^ 53`, every id is below
its counter and the counters are positive. -/
theorem idsBelow_load (data : Option (List Semester))
    (hsem : (load initialState data).nextSemId < 2 ^ 53)
    (hsub : (load initialState data).nextSubId < 2 ^ 53) :
    IdsBelow (load initialState data) ∧ 0 ≤ (load initialState data).nextSemId ∧
      0 ≤ (load initialState data).nextSubId := by
  have hdefault : IdsBelow (load initialState none) ∧ 0 ≤ (load initialState none).nextSemId ∧
      0 ≤ (load initialState none).nextSubId := by
    rw [load_default]
    refine ⟨?_, by decide, by decide⟩
    intro sem hsem
    simp only [List.mem_singleton] at hsem
    subst hsem
    refine ⟨by decide, ?_⟩
    intro s hs
    simp only [List.mem_cons, List.mem_singleton, List.not_mem_nil, or_false] at hs
    rcases hs with rfl | rfl | rfl <;> decide
  cases data with
  | none => exact hdefault
  | some l =>
    cases l with
    | nil => exact hdefault
    | cons a l =>
      simp only [load] at hsem hsub ⊢
      have m1 := foldl_max_ge (fun s : Semester => s.id) (a :: l) 0
      have m2 := foldl_max_ge (fun sub : Subject => if sub.id = 0 then 0 else sub.id)
        ((a :: l).flatMap fun s => s.subjects) 0
      have e1 := jsSucc_of_lt _ m1.1 hsem
      have e2 := jsSucc_of_lt _ m2.1 hsub
      rw [e1, e2]
      refine ⟨?_, by omega, by omega⟩
      intro sem hmem
      refine ⟨?_, ?_⟩
      · have := m1.2 sem hmem
        simp only at this ⊢
        omega
      · intro s hs
        have hmem' : s ∈ (a :: l).flatMap fun s => s.subjects :=
          List.mem_flatMap.mpr ⟨sem, hmem, hs⟩
        have := m2.2 s hmem'
        simp only at this ⊢
        split_ifs at this <;> omega

theorem updateSubject_id (sub : Subject) (u : FieldUpdate) : (updateSubject sub u).id = sub.id := by
  unfold updateSubject autoFR
  cases u <;> simp only [setField] <;> split_ifs <;> rfl

theorem idsBelow_updateSub (st st' : State) (semId subId : Int) (u : FieldUpdate)
    (h : IdsBelow st) (hst : updateSub st semId subId u = some st') :
    IdsBelow st' ∧ st'.nextSemId = st.nextSemId ∧ st'.nextSubId = st.nextSubId := by
  unfold updateSub at hst
  split at hst
  · cases hst
  · split at hst
    · cases hst
    · cases hst
      refine ⟨?_, rfl, rfl⟩
      refine modifyFirst_forall _ _
        (fun sem : Semester => sem.id < st.nextSemId ∧ ∀ s ∈ sem.subjects, s.id < st.nextSubId)
        st.sems h ?_
      intro sem hsem
      refine ⟨(h sem hsem).1, ?_⟩
      refine modifyFirst_forall _ _ (fun s : Subject => s.id < st.nextSubId) sem.subjects
        (h sem hsem).2 ?_
      intro s hs
      rw [updateSubject_id]
      exact (h sem hsem).2 s hs

theorem idsBelow_addSubject (st st' : State) (semId : Int)
    (h : IdsBelow st) (hst : addSubject st semId = some st')
    (hinc : jsSucc st.nextSubId = st.nextSubId + 1) :
    IdsBelow st' ∧ st'.nextSemId = st.nextSemId ∧ st'.nextSubId = st.nextSubId + 1 := by
  unfold addSubject at hst
  split at hst
  · cases hst
  · cases hst
    refine ⟨?_, rfl, hinc⟩
    simp only [newSubject, hinc]
    refine modifyFirst_forall _ _
      (fun sem : Semester =>
        sem.id < st.nextSemId ∧ ∀ s ∈ sem.subjects, s.id < st.nextSubId + 1) st.sems ?_ ?_
    · intro sem hsem
      exact ⟨(h sem hsem).1, fun s hs => by have := (h sem hsem).2 s hs; omega⟩
    · intro sem hsem
      refine ⟨(h sem hsem).1, ?_⟩
      intro s hs
      simp only [List.mem_append, List.mem_singleton] at hs
      rcases hs with hs | rfl
      · have := (h sem hsem).2 s hs; omega
      · simp

theorem idsBelow_removeSubject (st st' : State) (semId subId : Int)
    (h : IdsBelow st) (hst : removeSubject st semId subId = some st') :
    IdsBelow st' ∧ st'.nextSemId = st.nextSemId ∧ st'.nextSubId = st.nextSubId := by
  unfold removeSubject at hst
  split at hst
  · cases hst
  · cases hst
    refine ⟨?_, rfl, rfl⟩
    refine modifyFirst_forall _ _
      (fun sem : Semester => sem.id < st.nextSemId ∧ ∀ s ∈ sem.subjects, s.id < st.nextSubId)
      st.sems h ?_
    intro sem hsem
    exact ⟨(h sem hsem).1, fun s hs => (h sem hsem).2 s (List.mem_of_mem_filter hs)⟩

theorem idsBelow_addSemester (st : State) (h : IdsBelow st)
    (hsem : jsSucc st.nextSemId = st.nextSemId + 1)
    (hsub : jsSucc st.nextSubId = st.nextSubId + 1)
    (hsub2 : jsSucc (st.nextSubId + 1) = st.nextSubId + 2) :
    IdsBelow (addSemester st) ∧ (addSemester st).nextSemId = st.nextSemId + 1 ∧
      (addSemester st).nextSubId = st.nextSubId + 2 := by
  have e1 : (addSemester st).nextSemId = st.nextSemId + 1 := hsem
  have e2 : (addSemester st).nextSubId = st.nextSubId + 2 := by
    show jsSucc (jsSucc st.nextSubId) = st.nextSubId + 2
    rw [hsub, hsub2]
  refine ⟨?_, e1, e2⟩
  intro sem hmem
  rw [e1, e2]
  simp only [addSemester, newSemester, newSubject, List.mem_append, List.mem_singleton] at hmem
  rcases hmem with hmem | rfl
  · refine ⟨by have := (h sem hmem).1; omega, fun s hs => ?_⟩
    have := (h sem hmem).2 s hs
    omega
  · refine ⟨by simp, fun s hs => ?_⟩
    simp only [List.mem_cons, List.mem_singleton, List.not_mem_nil, or_false] at hs
    rcases hs with rfl | rfl
    · simp
    · simp only [hsub]; omega

theorem idsBelow_removeSemester (st : State) (id : Int) (confirmed : Bool) (h : IdsBelow st) :
    IdsBelow (removeSemester st id confirmed) ∧
      (removeSemester st id confirmed).nextSemId = st.nextSemId ∧
      (removeSemester st id confirmed).nextSubId = st.nextSubId := by
  unfold removeSemester
  cases confirmed with
  | false => exact ⟨h, rfl, rfl⟩
  | true =>
    refine ⟨?_, rfl, rfl⟩
    intro sem hsem
    exact h sem (List.mem_of_mem_filter hsem)

/-- A counter that is below `2 ^ 53` after an action was below it before. -/
theorem counters_before_step (st : State) (a : Action) :
    ((step st a).nextSemId < 2 ^ 53 → st.nextSemId < 2 ^ 53) ∧
      ((step st a).nextSubId < 2 ^ 53 → st.nextSubId < 2 ^ 53) := by
  cases a with
  | updateSub semId subId u =>
    simp only [step]
    unfold updateSub
    split
    · exact ⟨id, id⟩
    · split
      · exact ⟨id, id⟩
      · exact ⟨id, id⟩
  | addSubject semId =>
    simp only [step]
    unfold addSubject
    split
    · exact ⟨id, id⟩
    · exact ⟨id, fun h => lt_of_jsSucc_lt _ h⟩
  | removeSubject semId subId =>
    simp only [step]
    unfold removeSubject
    split
    · exact ⟨id, id⟩
    · exact ⟨id, id⟩
  | addSemester =>
    exact ⟨fun h => lt_of_jsSucc_lt _ h,
      fun h => lt_of_jsSucc_lt _ (lt_of_jsSucc_lt _ h)⟩
  | removeSemester id' confirmed =>
    simp only [step, removeSemester]
    split <;> exact ⟨id, id⟩

theorem counters_before_run (as : List Action) (st : State) :
    ((run st as).nextSemId < 2 ^ 53 → st.nextSemId < 2 ^ 53) ∧
      ((run st as).nextSubId < 2 ^ 53 → st.nextSubId < 2 ^ 53) := by
  induction as generalizing st with
  | nil => exact ⟨id, id⟩
  | cons a as ih =>
    have h1 := ih (step st a)
    have h2 := counters_before_step st a
    exact ⟨fun h => h2.1 (h1.1 h), fun h => h2.2 (h1.2 h)⟩

theorem idsBelow_step (st : State) (a : Action) (h : IdsBelow st)
    (h0 : 0 ≤ st.nextSemId ∧ 0 ≤ st.nextSubId)
    (hsem : (step st a).nextSemId < 2 ^ 53) (hsub : (step st a).nextSubId < 2 ^ 53) :
    IdsBelow (step st a) ∧ st.nextSemId ≤ (step st a).nextSemId ∧
      st.nextSubId ≤ (step st a).nextSubId := by
  have hb := counters_before_step st a
  have bsem := hb.1 hsem
  have bsub := hb.2 hsub
  cases a with
  | updateSub semId subId u =>
    simp only [step]
    cases hst : updateSub st semId subId u with
    | none => exact ⟨h, le_refl _, le_refl _⟩
    | some st' =>
      obtain ⟨h1, h2, h3⟩ := idsBelow_updateSub st st' semId subId u h hst
      exact ⟨h1, by simp [h2], by simp [h3]⟩
  | addSubject semId =>
    simp only [step]
    cases hst : addSubject st semId with
    | none => exact ⟨h, le_refl _, le_refl _⟩
    | some st' =>
      obtain ⟨h1, h2, h3⟩ := idsBelow_addSubject st st' semId h hst
        (jsSucc_eq _ h0.2 bsub)
      exact ⟨h1, by simp [h2], by simp [h3]⟩
  | removeSubject semId subId =>
    simp only [step]
    cases hst : removeSubject st semId subId with
    | none => exact ⟨h, le_refl _, le_refl _⟩
    | some st' =>
      obtain ⟨h1, h2, h3⟩ := idsBelow_removeSubject st st' semId subId h hst
      exact ⟨h1, by simp [h2], by simp [h3]⟩
  | addSemester =>
    have hs1 := jsSucc_eq _ h0.2 bsub
    have hmid : jsSucc st.nextSubId < 2 ^ 53 := lt_of_jsSucc_lt _ hsub
    have hs2 : jsSucc (st.nextSubId + 1) = st.nextSubId + 2 := by
      rw [hs1] at hmid
      rw [jsSucc_eq _ (by omega) hmid]
      omega
    obtain ⟨h1, h2, h3⟩ := idsBelow_addSemester st h (jsSucc_eq _ h0.1 bsem) hs1 hs2
    exact ⟨h1, by simp only [step]; omega, by simp only [step]; omega⟩
  | removeSemester id confirmed =>
    obtain ⟨h1, h2, h3⟩ := idsBelow_removeSemester st id confirmed h
    exact ⟨h1, by simp only [step]; omega, by simp only [step]; omega⟩

theorem idsBelow_run (as : List Action) (st : State) (h : IdsBelow st)
    (h0 : 0 ≤ st.nextSemId ∧ 0 ≤ st.nextSubId)
    (hsem : (run st as).nextSemId < 2 ^ 53) (hsub : (run st as).nextSubId < 2 ^ 53) :
    (IdsBelow (run st as) ∧ 0 ≤ (run st as).nextSemId ∧ 0 ≤ (run st as).nextSubId) ∧
      st.nextSemId ≤ (run st as).nextSemId ∧ st.nextSubId ≤ (run st as).nextSubId := by
  induction as generalizing st with
  | nil => exact ⟨⟨h, h0⟩, le_refl _, le_refl _⟩
  | cons a as ih =>
    have hb := counters_before_run as (step st a)
    obtain ⟨h1, h2, h3⟩ := idsBelow_step st a h h0 (hb.1 hsem) (hb.2 hsub)
    obtain ⟨k1, k2, k3⟩ := ih (step st a) h1 ⟨le_trans h0.1 h2, le_trans h0.2 h3⟩ hsem hsub
    exact ⟨k1, le_trans h2 k2, le_trans h3 k3⟩

/-- C8 (amended): ids are never reused while the counters stay below
`2 ^ 53`.  From the state that `load` produces (the default session, ids
1..3 and counters 2 and 4, or a non-empty stored snapshot), and for any two
sequences of actions after which `nextSemId` and `nextSubId` are still
below `2 ^ 53`: after the first sequence every semester id is below
`nextSemId` and every subject id below `nextSubId`; the counters do not
decrease during the second; and the ids that `newSemester` and `newSubject`
hand out after the second exceed every id present after the first, whether
or not that subject or semester was removed in between. -/
theorem ids_never_reused (data : Option (List Semester)) (as₁ as₂ : List Action)
    (hsem : (run (run (load initialState data) as₁) as₂).nextSemId < 2 ^ 53)
    (hsub : (run (run (load initialState data) as₁) as₂).nextSubId < 2 ^ 53) :
    ((load initialState none).sems.map (fun sem => (sem.id, sem.subjects.map fun s => s.id)) =
        [(1, [1, 2, 3])] ∧
      (load initialState none).nextSemId = 2 ∧ (load initialState none).nextSubId = 4) ∧
    IdsBelow (run (load initialState data) as₁) ∧
    (run (load initialState data) as₁).nextSemId ≤
      (run (run (load initialState data) as₁) as₂).nextSemId ∧
    (run (load initialState data) as₁).nextSubId ≤
      (run (run (load initialState data) as₁) as₂).nextSubId ∧
    (∀ sem ∈ (run (load initialState data) as₁).sems,
      sem.id < (newSemester (run (run (load initialState data) as₁) as₂)).1.id ∧
      ∀ s ∈ sem.subjects,
        s.id < (newSubject (run (run (load initialState data) as₁) as₂)).1.id ∧
        ∀ n ∈ (newSemester (run (run (load initialState data) as₁) as₂)).1.subjects,
          s.id < n.id) := by
  have b1 := counters_before_run as₂ (run (load initialState data) as₁)
  have b0 := counters_before_run as₁ (load initialState data)
  have hl := idsBelow_load data (b0.1 (b1.1 hsem)) (b0.2 (b1.2 hsub))
  obtain ⟨⟨h1, z1, z2⟩, -, -⟩ := idsBelow_run as₁ _ hl.1 hl.2 (b1.1 hsem) (b1.2 hsub)
  obtain ⟨⟨-, y1, y2⟩, k2, k3⟩ := idsBelow_run as₂ _ h1 ⟨z1, z2⟩ hsem hsub
  refine ⟨⟨by rw [load_default]; decide, by rw [load_default], by rw [load_default]⟩,
    h1, k2, k3, ?_⟩
  intro sem hmem
  refine ⟨lt_of_lt_of_le (h1 sem hmem).1 k2, fun s hs => ?_⟩
  have hlt := (h1 sem hmem).2 s hs
  refine ⟨lt_of_lt_of_le hlt k3, fun n hn => ?_⟩
  have hinc := jsSucc_eq _ y2 hsub
  simp only [newSemester, newSubject, List.mem_cons, List.mem_singleton, List.not_mem_nil,
    or_false] at hn
  rcases hn with rfl | rfl
  · simp only; omega
  · simp only [hinc]; omega

/-- C8 (amended) on the default session: after adding a semester and a
subject, and then removing subject 2 and adding a semester again, the
counters are far below `2 ^ 53` and the next ids exceed every earlier id. -/
theorem ids_never_reused_witness :
    (run (run (load initialState none) [Action.addSemester, Action.addSubject 1])
        [Action.removeSubject 1 2, Action.addSemester]).nextSemId = 4 ∧
    (run (run (load initialState none) [Action.addSemester, Action.addSubject 1])
        [Action.removeSubject 1 2, Action.addSemester]).nextSubId = 9 ∧
    IdsBelow (run (load initialState none) [Action.addSemester, Action.addSubject 1]) :=
  ⟨by decide!, by decide!,
   (ids_never_reused none [Action.addSemester, Action.addSubject 1]
     [Action.removeSubject 1 2, Action.addSemester] (by decide!) (by decide!)).2.1⟩

/-- C8 as stated fails: `load` of a stored snapshot whose ids are `2 ^ 53`
computes `2 ^ 53 + 1` in doubles, which is `2 ^ 53`, so both counters equal
the stored ids, and `addSemester` hands out `2 ^ 53` again for the new
semester and for both of its subjects. -/
theorem ids_reused_at_two_pow_53 :
    (load initialState (some bigSnapshot)).nextSemId = 9007199254740992 ∧
    (load initialState (some bigSnapshot)).nextSubId = 9007199254740992 ∧
    ¬ IdsBelow (run (load initialState (some bigSnapshot)) []) ∧
    (addSemester (load initialState (some bigSnapshot))).sems.map
        (fun sem => (sem.id, sem.subjects.map fun s => s.id)) =
      [(9007199254740992, [9007199254740992]),
       (9007199254740992, [9007199254740992, 9007199254740992])] := by
  refine ⟨by decide!, by decide!, ?_, by decide!⟩
  intro h
  have h1 := (h _ (List.mem_singleton.mpr rfl)).1
  have h2 : (run (load initialState (some bigSnapshot)) []).nextSemId = 9007199254740992 := by
    decide!
  rw [h2] at h1
  exact absurd h1 (by decide)

/-- C9 fails on the code: the import replaces `sems` and leaves both counters
as they were.  After the default start (counters 2 and 4) and the import of
a file with semester id 2 and subject id 4, `addSemester` creates a second
semester with id 2 and `addSubject(2)` a second subject with id 4. -/
theorem import_reuses_ids :
    afterImport.nextSemId = 2 ∧ afterImport.nextSubId = 4 ∧
    afterImport.sems.map (fun sem => (sem.id, sem.subjects.map fun s => s.id)) = [(2, [4])] ∧
    (newSemester afterImport).1.id = 2 ∧ (newSubject afterImport).1.id = 4 ∧
    (addSemester afterImport).sems.map (fun sem => (sem.id, sem.subjects.map fun s => s.id)) =
      [(2, [4]), (2, [4, 5])] ∧
    (addSubject afterImport 2).map
        (fun st => st.sems.map fun sem => (sem.id, sem.subjects.map fun s => s.id)) =
      some [(2, [4, 4])] := by
  decide!

end CGPA
